import Mathlib

/-!
Shallow embedding of the tic-tac-toe game engine from `src/script.js`
(the `Gameboard` and `Game` modules; the `DisplayController` presentation
layer is out of scope).  Cells are the JS strings `""`, `"X"`, `"O"`.
JS `null`/`undefined` become `Option`, thrown errors become an explicit
`JsError`, and JS numbers (where the distinction matters, i.e. at the
`playTurn` type check) are modelled as rationals.
-/

deriving instance DecidableEq for Except

namespace TicTacToe

/-- The errors the source can throw.  The first six are the `throw Error(...)`
sites of the engine; `typeError` stands for the runtime `TypeError` JS raises
when a property is read off `null`/`undefined`. -/
inductive JsError where
  | invalidMark
  | outOfBounds
  | invalidPlayerName
  | wrongPlayerCount
  | noActiveMatch
  | coordType
  | typeError
deriving DecidableEq, Repr

/-- A JS value as far as the engine's `typeof` checks can tell them apart:
a string, a number (modelled as a rational, so fractional numbers such as
`1.5` are representable), or anything else (`undefined`, `null`, objects...). -/
inductive JsVal where
  | str : String → JsVal
  | num : ℚ → JsVal
  | other : JsVal
deriving DecidableEq, Repr

/-- `typeof v === "number"`. -/
def JsVal.isNum : JsVal → Bool
  | .num _ => true
  | _ => false

/-- `typeof v === "string"`. -/
def JsVal.isStr : JsVal → Bool
  | .str _ => true
  | _ => false

/-- `const marks = ["X", "O"];` (script.js line 102). -/
def marks : List String := ["X", "O"]

/-- `const firstPlayingMark = marks[0];` (line 103). -/
def firstPlayingMark : String := marks.getD 0 ""

/-- JS `String.prototype.toUpperCase` on the ASCII strings the engine deals
with, character by character.  (Defined here rather than via `String.toUpper`
so that it evaluates by kernel reduction.) -/
def toUpperCase (s : String) : String := ⟨s.data.map Char.toUpper⟩

/-- `const isAValidMark = mark => marks.includes(mark.toUpperCase());` (line 105). -/
def isAValidMark (mark : String) : Bool := marks.contains (toUpperCase mark)

/-- A player record: the closure state captured by the `Player` factory
(lines 108-119). -/
structure Player where
  name : String
  mark : String
deriving DecidableEq, Repr

/-- The `Player` factory function (lines 108-119): validates the name is a
string (else throws, modelled `invalidPlayerName`) and the mark is recognized
(else throws, modelled `invalidMark`), then returns the record. -/
def Player.make (name : JsVal) (mark : String) : Except JsError Player :=
  match name with
  | .str n => if ¬ isAValidMark mark then .error .invalidMark else .ok ⟨n, mark⟩
  | _ => .error .invalidPlayerName

-- `allResults = Object.freeze({ NONE: 0, WIN_LOSE: 1, DRAW: 2 })` (line 129).
namespace allResults

def NONE : Nat := 0

def WIN_LOSE : Nat := 1

def DRAW : Nat := 2

end allResults

/-- The record returned by the `TurnResultData` factory (lines 131-140).
The two winning-line fields are `undefined` (`none`) when not passed. -/
structure TurnResultData where
  result : Nat
  winningLineType : Option String := none
  winningLineNumber : Option Nat := none
deriving DecidableEq, Repr

-- `allSquareMatrixLines` (lines 7-32): line extraction from a square matrix.
namespace allSquareMatrixLines

/-- `row: (squareMatrix, rowNumber) => squareMatrix[rowNumber]` (line 8),
for an in-range row number. -/
def row (squareMatrix : List (List String)) (rowNumber : Nat) : List String :=
  squareMatrix.getD rowNumber []

/-- `column: (squareMatrix, columnNumber) => squareMatrix.map(row => row[columnNumber])`
(line 10), for an in-range column number. -/
def column (squareMatrix : List (List String)) (columnNumber : Nat) : List String :=
  squareMatrix.map (fun r => r.getD columnNumber "")

/-- `mainDiagonal` (lines 12-22): pushes `squareMatrix[i][i]` for
`i = 0 .. squareMatrix.length - 1`. -/
def mainDiagonal (squareMatrix : List (List String)) : List String :=
  (List.range squareMatrix.length).map
    (fun i => (squareMatrix.getD i []).getD i "")

/-- `antiDiagonal` (lines 24-31): pushes `squareMatrix[i][length - 1 - i]` for
`i = 0 .. squareMatrix.length - 1` (the column counter starts at `length - 1`
and is decremented). -/
def antiDiagonal (squareMatrix : List (List String)) : List String :=
  (List.range squareMatrix.length).map
    (fun i => (squareMatrix.getD i []).getD (squareMatrix.length - 1 - i) "")

end allSquareMatrixLines

/-- `isFilledWith = (array, value) => array.every(element => element === value)`
(line 142). -/
def isFilledWith (array : List String) (value : String) : Bool :=
  array.all (fun element => element == value)

/-- The mutable state of the `Gameboard` and `Game` modules combined:
`width` and `gameboard` are the `Gameboard` closure variables (lines 42-44),
`players`, `currentPlayer` and `currentTurn` the `Game` ones (lines 121-124). -/
structure GameState where
  width : Nat
  gameboard : List (List String)
  players : List Player
  currentPlayer : Option Player
  currentTurn : Nat
deriving DecidableEq, Repr

/-- Module-load state: `width = 3`, `gameboard = []`, `players = []`,
`currentPlayer = null`, `currentTurn = 1`. -/
def initialState : GameState :=
  { width := 3, gameboard := [], players := [], currentPlayer := none, currentTurn := 1 }

/-- `let width = 3;` (line 42): the width the `Gameboard` module is loaded with. -/
def initialWidth : Nat := 3

/-- `const firstTurnAtWhichGameCanEnd = marks.length * (Gameboard.getGameboardWidth() - 1) + 1;`
(line 127).  NOTE: in the source this is a `const` of the `Game` IIFE, evaluated
exactly once at module initialization, when the gameboard width is still its
initial value `3`; it is NOT recomputed when `start` resizes the board. -/
def firstTurnAtWhichGameCanEnd : Nat := marks.length * (initialWidth - 1) + 1

namespace Gameboard

/-- `clear` + `init` (lines 46-58) as invoked from `setGameboard`: the
resulting grid is `width` rows of `width` empty-string cells. -/
def clear (width : Nat) : List (List String) :=
  List.replicate width (List.replicate width "")

/-- `isValidRowOrColumnNumber` (lines 60-62) for a value already known to be a
nonnegative integer (`Nat`): the `typeof number === "number"` and `number >= 0`
conjuncts hold, leaving `number < width`.  (`markGameboardJS` below models the
general JS-number case.) -/
def isValidRowOrColumnNumber (width : Nat) (number : Nat) : Bool :=
  number < width

/-- `markGameboard` (lines 76-94) for nonnegative-integer coordinates.
Validates the mark (`Game.getMarks().includes(mark)`), then both coordinates;
reading `gameboard[rowNumber]` off the end of the array yields `undefined`
and the subsequent `[columnNumber]` read throws a `TypeError`; an `undefined`
cell (column off the end of the row) satisfies `cellToBeMarked !== ""` and
returns `false`; an already-marked cell returns `false`; otherwise the cell is
written and `true` is returned. -/
def markGameboard (width : Nat) (gameboard : List (List String)) (mark : String)
    (rowNumber columnNumber : Nat) : Except JsError (List (List String) × Bool) :=
  if ¬ marks.contains mark then .error .invalidMark
  else if ¬ (isValidRowOrColumnNumber width rowNumber
      && isValidRowOrColumnNumber width columnNumber) then .error .outOfBounds
  else
    match gameboard.get? rowNumber with
    | none => .error .typeError
    | some r =>
      match r.get? columnNumber with
      | none => .ok (gameboard, false)
      | some cellToBeMarked =>
        if cellToBeMarked ≠ "" then .ok (gameboard, false)
        else .ok (gameboard.set rowNumber (r.set columnNumber mark), true)

end Gameboard

/-- `markResult` (lines 144-195).  Takes the state at evaluation time (the
grid already contains the just-placed mark; `currentTurn` is not yet
incremented).  The checks run in the source's order: fast reject, row, column,
main diagonal (only when `rowNumber === columnNumber`), anti-diagonal (only
when `rowNumber + columnNumber === gameboard.length - 1`), board-full draw
(`currentTurn === width ** 2`), else none. -/
def markResult (s : GameState) (mark : String) (rowNumber columnNumber : Nat) :
    TurnResultData :=
  if s.currentTurn < firstTurnAtWhichGameCanEnd then
    { result := allResults.NONE }
  else
    let gameboard := s.gameboard
    if isFilledWith (allSquareMatrixLines.row gameboard rowNumber) mark then
      { result := allResults.WIN_LOSE, winningLineType := some "row",
        winningLineNumber := some rowNumber }
    else if isFilledWith (allSquareMatrixLines.column gameboard columnNumber) mark then
      { result := allResults.WIN_LOSE, winningLineType := some "column",
        winningLineNumber := some columnNumber }
    else if rowNumber = columnNumber
        ∧ isFilledWith (allSquareMatrixLines.mainDiagonal gameboard) mark then
      { result := allResults.WIN_LOSE, winningLineType := some "mainDiagonal" }
    else if (rowNumber : Int) + (columnNumber : Int) = (gameboard.length : Int) - 1
        ∧ isFilledWith (allSquareMatrixLines.antiDiagonal gameboard) mark then
      { result := allResults.WIN_LOSE, winningLineType := some "antiDiagonal" }
    else if s.currentTurn = s.width ^ 2 then
      { result := allResults.DRAW }
    else
      { result := allResults.NONE }

/-- The loop body of `playerNames.forEach(...)` in `start` (lines 240-242):
pushes `Player(playerName, marks[playerIndex])` for each name; a throw inside
the loop leaves the players pushed so far. -/
def pushPlayers : List JsVal → Nat → List Player → List Player × Option JsError
  | [], _, acc => (acc, none)
  | n :: rest, i, acc =>
    match Player.make n (marks.getD i "") with
    | .error e => (acc, some e)
    | .ok p => pushPlayers rest (i + 1) (acc ++ [p])

/-- `start` (lines 225-245).  If a match exists (`players.length > 0`),
players/currentPlayer/currentTurn are reset first; the board is then resized
and cleared (`Gameboard.setGameboard`); only afterwards is the player count
validated; finally the players are constructed and the first becomes current.
Returns the state as mutated up to the (possible) throw, plus the error. -/
def start (s : GameState) (gameboardWidth : Nat) (playerNames : List JsVal) :
    GameState × Option JsError :=
  let s0 := if s.players.length > 0 then
      { s with players := [], currentPlayer := none, currentTurn := 1 }
    else s
  let s1 := { s0 with width := gameboardWidth,
                      gameboard := Gameboard.clear gameboardWidth }
  if playerNames.length ≠ marks.length then
    (s1, some .wrongPlayerCount)
  else
    match pushPlayers playerNames 0 [] with
    | (ps, some e) => ({ s1 with players := ps }, some e)
    | (ps, none) => ({ s1 with players := ps, currentPlayer := ps.head? }, none)

/-- `playTurn` (lines 247-266) for nonnegative-integer coordinates (so the
`typeof` guard at line 248 passes; `playTurnJS` models the general case).
When no match is active, `currentPlayer.getMark()` reads a property off
`null` and throws a `TypeError`.  On a successful mark the result is
evaluated; a `NONE` result advances `currentPlayer` (via
`players.indexOf(currentPlayer)`) and increments `currentTurn`.  When
`markGameboard` returns `false` the function falls through and returns
`undefined` (`none`). -/
def playTurn (s : GameState) (rowNumber columnNumber : Nat) :
    GameState × Except JsError (Option TurnResultData) :=
  match s.currentPlayer with
  | none => (s, .error .typeError)
  | some p =>
    match Gameboard.markGameboard s.width s.gameboard p.mark rowNumber columnNumber with
    | .error e => (s, .error e)
    | .ok (g, endTurn) =>
      let s1 := { s with gameboard := g }
      if endTurn then
        let turnResult := markResult s1 p.mark rowNumber columnNumber
        if turnResult.result = allResults.NONE then
          let currentPlayerIndex := s.players.indexOf p
          let nextPlayer := if currentPlayerIndex = s.players.length - 1 then
              s.players.getD 0 p
            else s.players.getD (currentPlayerIndex + 1) p
          ({ s1 with currentPlayer := some nextPlayer,
                     currentTurn := s.currentTurn + 1 }, .ok (some turnResult))
        else (s1, .ok (some turnResult))
      else (s1, .ok none)

/-- `getCurrentPlayerName` (lines 202-207). -/
def getCurrentPlayerName (s : GameState) : Except JsError String :=
  match s.currentPlayer with
  | none => .error .noActiveMatch
  | some p => .ok p.name

/-- `getCurrentPlayerMark` (lines 209-214). -/
def getCurrentPlayerMark (s : GameState) : Except JsError String :=
  match s.currentPlayer with
  | none => .error .noActiveMatch
  | some p => .ok p.mark

/-- `getCurrentPlayerOrder` (lines 216-221). -/
def getCurrentPlayerOrder (s : GameState) : Except JsError Nat :=
  match s.currentPlayer with
  | none => .error .noActiveMatch
  | some p => .ok (s.players.indexOf p + 1)

/-- `const getCurrentTurn = () => currentTurn;` (line 223).  NOTE: unlike the
three player accessors above, the source performs NO null-check here; the
counter is returned unconditionally.  The `Except` signature makes that
directly comparable with the other accessors. -/
def getCurrentTurn (s : GameState) : Except JsError Nat :=
  .ok s.currentTurn

/-- JS array read `l[q]` for a number index `q`: the element when `q` is an
integer in `[0, length)`, `undefined` (`none`) otherwise. -/
def qIndex {α : Type} (l : List α) (q : ℚ) : Option α :=
  if q.den = 1 ∧ 0 ≤ q.num ∧ q.num.toNat < l.length then l.get? q.num.toNat
  else none

/-- `isValidRowOrColumnNumber` (lines 60-62) on a general JS value:
`typeof number === "number" && number >= 0 && number < width`. -/
def isValidRowOrColumnNumberJS (width : Nat) (number : JsVal) : Bool :=
  match number with
  | .num q => decide (0 ≤ q) && decide (q < (width : ℚ))
  | _ => false

/-- `markGameboard` (lines 76-94) on general JS-number coordinates.  A
fractional (or too-large) row number makes `gameboard[rowNumber]` read as
`undefined`, so the following `[columnNumber]` access throws a `TypeError`;
a fractional column number makes `cellToBeMarked` come out `undefined`,
which satisfies `cellToBeMarked !== ""` and returns `false`. -/
def markGameboardJS (width : Nat) (gameboard : List (List String)) (mark : String)
    (rowNumber columnNumber : JsVal) : Except JsError (List (List String) × Bool) :=
  if ¬ marks.contains mark then .error .invalidMark
  else if ¬ (isValidRowOrColumnNumberJS width rowNumber
      && isValidRowOrColumnNumberJS width columnNumber) then .error .outOfBounds
  else
    match rowNumber, columnNumber with
    | .num rq, .num cq =>
      match qIndex gameboard rq with
      | none => .error .typeError
      | some r =>
        match qIndex r cq with
        | none => .ok (gameboard, false)
        | some cellToBeMarked =>
          if cellToBeMarked ≠ "" then .ok (gameboard, false)
          else .ok (gameboard.set rq.num.toNat (r.set cq.num.toNat mark), true)
    | _, _ => .error .outOfBounds

/-- `playTurn` (lines 247-266) on general JS values: the guard at line 248
rejects any argument with `typeof !== "number"` (and only those).  In the
successful-mark branch both coordinates are necessarily in-range integers,
written here as their `Nat` values. -/
def playTurnJS (s : GameState) (rowNumber columnNumber : JsVal) :
    GameState × Except JsError (Option TurnResultData) :=
  if ¬ (rowNumber.isNum && columnNumber.isNum) then (s, .error .coordType)
  else
    match s.currentPlayer with
    | none => (s, .error .typeError)
    | some p =>
      match markGameboardJS s.width s.gameboard p.mark rowNumber columnNumber with
      | .error e => (s, .error e)
      | .ok (g, endTurn) =>
        let s1 := { s with gameboard := g }
        if endTurn then
          let rn := match rowNumber with | .num q => q.num.toNat | _ => 0
          let cn := match columnNumber with | .num q => q.num.toNat | _ => 0
          let turnResult := markResult s1 p.mark rn cn
          if turnResult.result = allResults.NONE then
            let currentPlayerIndex := s.players.indexOf p
            let nextPlayer := if currentPlayerIndex = s.players.length - 1 then
                s.players.getD 0 p
              else s.players.getD (currentPlayerIndex + 1) p
            ({ s1 with currentPlayer := some nextPlayer,
                       currentTurn := s.currentTurn + 1 }, .ok (some turnResult))
          else (s1, .ok (some turnResult))
        else (s1, .ok none)

/-! ## Spec-side definitions

These transcribe the specification's wording (spec.md §4.2 steps 2-7 and §8's
win/draw property), to be compared against the source-derived `markResult`. -/

/-- Modelled from the spec: the "full scan of steps 2-7" of the win/draw
evaluation algorithm (spec.md §4.2) — i.e. `markResult` WITHOUT the step-1
fast-reject early return.  Used to state the refinement claim that the fast
reject never changes the outcome. -/
def fullScanResult (s : GameState) (mark : String) (rowNumber columnNumber : Nat) :
    TurnResultData :=
  let gameboard := s.gameboard
  if isFilledWith (allSquareMatrixLines.row gameboard rowNumber) mark then
    { result := allResults.WIN_LOSE, winningLineType := some "row",
      winningLineNumber := some rowNumber }
  else if isFilledWith (allSquareMatrixLines.column gameboard columnNumber) mark then
    { result := allResults.WIN_LOSE, winningLineType := some "column",
      winningLineNumber := some columnNumber }
  else if rowNumber = columnNumber
      ∧ isFilledWith (allSquareMatrixLines.mainDiagonal gameboard) mark then
    { result := allResults.WIN_LOSE, winningLineType := some "mainDiagonal" }
  else if (rowNumber : Int) + (columnNumber : Int) = (gameboard.length : Int) - 1
      ∧ isFilledWith (allSquareMatrixLines.antiDiagonal gameboard) mark then
    { result := allResults.WIN_LOSE, winningLineType := some "antiDiagonal" }
  else if s.currentTurn = s.width ^ 2 then
    { result := allResults.DRAW }
  else
    { result := allResults.NONE }

/-- Modelled from the spec (claim C2's wording): "some full row, full column,
the main diagonal (when the placed cell lies on it), or the anti-diagonal
(when the placed cell lies on it) is filled entirely with the placed mark". -/
def specWin (w : Nat) (g : List (List String)) (mark : String) (r c : Nat) : Prop :=
  (∃ i < w, isFilledWith (allSquareMatrixLines.row g i) mark = true) ∨
  (∃ j < w, isFilledWith (allSquareMatrixLines.column g j) mark = true) ∨
  (r = c ∧ isFilledWith (allSquareMatrixLines.mainDiagonal g) mark = true) ∨
  (r + c = w - 1 ∧ isFilledWith (allSquareMatrixLines.antiDiagonal g) mark = true)

/-- The board is completely full: no cell holds the empty string. -/
def boardFull (g : List (List String)) : Prop :=
  ∀ r ∈ g, ∀ cell ∈ r, cell ≠ ""

/-- The disjunction of the four line checks of `markResult` (steps 2-5),
exactly as the source tests them at the placed cell `(r, c)`. -/
def chainWin (g : List (List String)) (mark : String) (r c : Nat) : Prop :=
  isFilledWith (allSquareMatrixLines.row g r) mark = true ∨
  isFilledWith (allSquareMatrixLines.column g c) mark = true ∨
  (r = c ∧ isFilledWith (allSquareMatrixLines.mainDiagonal g) mark = true) ∨
  ((r : Int) + c = (g.length : Int) - 1 ∧
    isFilledWith (allSquareMatrixLines.antiDiagonal g) mark = true)

/-- Number of occurrences of the mark `m` on the board. -/
def boardCount (g : List (List String)) (m : String) : Nat :=
  (g.map (fun r => r.count m)).sum

/-- Number of non-empty cells on the board. -/
def totalMarked (g : List (List String)) : Nat :=
  (g.map (fun r => r.countP (fun cell => cell != ""))).sum

/-! ## Shared concrete runs used by counterexamples and code-bug evidence -/

/-- State right after `start(3, "A", "B")` from the module-load state. -/
def demoStart : GameState :=
  (start initialState 3 [JsVal.str "A", JsVal.str "B"]).1

/-- State right after `start(2, "A", "B")` from the module-load state. -/
def twoStart : GameState :=
  (start initialState 2 [JsVal.str "A", JsVal.str "B"]).1

/-- Width-2 match after X marks (0,0) and O marks (1,0): board
`[["X",""],["O",""]]`, X to move, turn 3. -/
def twoRun2 : GameState :=
  (playTurn (playTurn twoStart 0 0).1 1 0).1

/-- Width-3 match after X (0,0), O (1,0), X (0,1), O (1,1): board
`[["X","X",""],["O","O",""],["","",""]]`, X to move, turn 5. -/
def demoRun4 : GameState :=
  (playTurn (playTurn (playTurn (playTurn demoStart 0 0).1 1 0).1 0 1).1 1 1).1

/-- The state after X completes row 0 on the width-3 board: the fifth
`playTurn` returned a `WIN_LOSE` result, so turn stays 5 and X stays current. -/
def winState : GameState :=
  (playTurn demoRun4 0 2).1

/-- The JS number `1.5`, as a rational (given in constructor form so it
evaluates by kernel reduction; `oneHalf_and_threeHalves_eq` below checks the
values). -/
def threeHalves : ℚ := ⟨3, 2, by norm_num, by norm_num⟩

/-- The JS number `0.5`, as a rational. -/
def oneHalf : ℚ := ⟨1, 2, by norm_num, by norm_num⟩

/-! ## Reachability and invariants -/

/-- No row, column or diagonal of the board is filled entirely with `m`. -/
def noFullLine (w : Nat) (g : List (List String)) (m : String) : Prop :=
  (∀ i < w, isFilledWith (allSquareMatrixLines.row g i) m = false) ∧
  (∀ j < w, isFilledWith (allSquareMatrixLines.column g j) m = false) ∧
  isFilledWith (allSquareMatrixLines.mainDiagonal g) m = false ∧
  isFilledWith (allSquareMatrixLines.antiDiagonal g) m = false

/-- The state invariant of an in-progress match on a width-`w` board:
well-formed square grid of cells drawn from `""`/`"X"`/`"O"`, the two players
paired positionally with the marks, the turn counter one more than the number
of placed marks, the per-mark counts those of strict alternation starting
with X, the current player determined by the turn parity, and no completed
line on the board. -/
structure Inv (w : Nat) (s : GameState) : Prop where
  width_eq : s.width = w
  glen : s.gameboard.length = w
  rowlen : ∀ r ∈ s.gameboard, r.length = w
  cells : ∀ r ∈ s.gameboard, ∀ cell ∈ r, cell = "" ∨ cell = "X" ∨ cell = "O"
  players_shape : ∃ a b, s.players = [⟨a, "X"⟩, ⟨b, "O"⟩]
  turn_count : s.currentTurn = 1 + totalMarked s.gameboard
  countX : boardCount s.gameboard "X" = s.currentTurn / 2
  countO : boardCount s.gameboard "O" = (s.currentTurn - 1) / 2
  current : s.currentPlayer = s.players.get? ((s.currentTurn - 1) % 2)
  no_line : ∀ m ∈ marks, noFullLine w s.gameboard m

/-- Match states reachable from a successful two-name `start(w, a, b)` through
successful marks each of whose evaluation returned `NONE` (i.e. the game is
still in progress).  The pre-`start` state is only required to be quiescent
(`currentTurn = 1` whenever no players exist), which holds of every state the
engine can actually be in when `start` is called. -/
inductive InPlay (w : Nat) : GameState → Prop where
  | started (s : GameState) (a b : String) (s' : GameState)
      (hq : s.players = [] → s.currentTurn = 1)
      (h : start s w [JsVal.str a, JsVal.str b] = (s', none)) : InPlay w s'
  | stepped (s : GameState) (r c : Nat) (s' : GameState) (tr : TurnResultData)
      (hs : InPlay w s)
      (h : playTurn s r c = (s', Except.ok (some tr)))
      (hres : tr.result = allResults.NONE) : InPlay w s'

/-- Every stored player mark, and the current player's mark, is one of the
two canonical recognized marks. -/
def marksOK (s : GameState) : Prop :=
  (∀ p ∈ s.players, marks.contains p.mark = true) ∧
  (∀ p, s.currentPlayer = some p → marks.contains p.mark = true)

/-- Match states reachable from any successful `start` through arbitrary
further `playTurn` calls (the states in which "a match created via a
successful start()" exists). -/
inductive ActiveMatch : GameState → Prop where
  | started (s : GameState) (w : Nat) (names : List JsVal) (s' : GameState)
      (h : start s w names = (s', none)) : ActiveMatch s'
  | stepped (s : GameState) (r c : Nat) (hs : ActiveMatch s) :
      ActiveMatch (playTurn s r c).1

/-! ## Claim theorems -/

/-- Claim C1 (code-bug evidence).  `firstTurnAtWhichGameCanEnd` is computed
once at module load from the initial width 3, so it is the constant 5; on a
width-2 board started via `start(2,"A","B")` the fast-reject early return
fires at turn 3 even though X has just completed row 0: `markResult` returns
`NONE` while the spec's full scan of steps 2-7 returns `WIN_LOSE` on row 0.
The threshold is NOT re-derived from the current board's width, and the
shortcut IS a source of an incorrect early `None`. -/
theorem c1_fast_reject_diverges_on_width_two :
    firstTurnAtWhichGameCanEnd = 5 ∧
    twoRun2.width = 2 ∧ twoRun2.currentTurn = 3 ∧
    twoRun2.gameboard = [["X", ""], ["O", ""]] ∧
    (playTurn twoRun2 0 1).2 = Except.ok (some { result := allResults.NONE }) ∧
    markResult { twoRun2 with gameboard := [["X", "X"], ["O", ""]] } "X" 0 1
      = { result := allResults.NONE } ∧
    fullScanResult { twoRun2 with gameboard := [["X", "X"], ["O", ""]] } "X" 0 1
      = { result := allResults.WIN_LOSE, winningLineType := some "row",
          winningLineNumber := some 0 } := by decide

/-- Claim C2 counterexample.  With `W = 2`, after `start(2,"A","B")` and the
distinct-empty-cell marks X(0,0) and O(1,0) (both evaluated `NONE`), the mark
X(0,1) fills row 0 entirely with the placed mark, yet the evaluation returns
`NONE`, not `Win` — so the claimed equivalence fails at width 2. -/
theorem c2_counterexample_width_two :
    (playTurn (playTurn twoStart 0 0).1 1 0).2
      = Except.ok (some { result := allResults.NONE }) ∧
    (playTurn twoRun2 0 1).2 = Except.ok (some { result := allResults.NONE }) ∧
    isFilledWith
      (allSquareMatrixLines.row (playTurn twoRun2 0 1).1.gameboard 0) "X" = true := by
  decide

/-- Claim C3 counterexample.  After the fifth move returns a `WIN_LOSE`
outcome (`winState`), a further `playTurn` on the still-empty cell (2,2)
mutates the grid, toggles the current player, increments the turn counter,
and returns a `NONE` (non-concluded) result. -/
theorem c3_counterexample_post_win_mutation :
    (playTurn demoRun4 0 2).2
      = Except.ok (some
          { result := allResults.WIN_LOSE,
            winningLineType := some "row", winningLineNumber := some 0 }) ∧
    (playTurn winState 2 2).1.gameboard ≠ winState.gameboard ∧
    (playTurn winState 2 2).1.currentPlayer ≠ winState.currentPlayer ∧
    winState.currentTurn = 5 ∧ (playTurn winState 2 2).1.currentTurn = 6 ∧
    (playTurn winState 2 2).2 = Except.ok (some { result := allResults.NONE }) := by
  decide

/-- Claim C4 counterexample.  From a match in progress (one turn played, so
`currentTurn = 2` and two players exist), `start(3, "A")` fails the
player-count validation — but the players list and turn counter have already
been reset (to `[]` and `1`), NOT left as they were before the call. -/
theorem c4_counterexample_reset_before_validation :
    (playTurn demoStart 0 0).1.currentTurn = 2 ∧
    (playTurn demoStart 0 0).1.players ≠ [] ∧
    (start (playTurn demoStart 0 0).1 3 [JsVal.str "A"]).2
      = some JsError.wrongPlayerCount ∧
    (start (playTurn demoStart 0 0).1 3 [JsVal.str "A"]).1.currentTurn = 1 ∧
    (start (playTurn demoStart 0 0).1 3 [JsVal.str "A"]).1.players = [] := by
  decide

theorem oneHalf_and_threeHalves_eq : oneHalf = 1 / 2 ∧ threeHalves = 3 / 2 := by
  unfold oneHalf threeHalves
  rw [Rat.mk'_eq_divInt, Rat.mk'_eq_divInt, Rat.divInt_eq_div, Rat.divInt_eq_div]
  norm_num

/-- Claim C5 counterexample.  On an active width-3 match, the fractional
column number `1.5` passes the `typeof` guard and every validity check
(`0 ≤ 1.5 < 3`), reads the cell as `undefined`, and silently no-ops — no
`InvalidCoordinateType` error is raised and the call returns `undefined`;
a fractional row number `0.5` instead raises a `TypeError` (reading a
property of `undefined`), which is also not the claimed error. -/
theorem c5_counterexample_fractional_coordinates :
    playTurnJS demoStart (JsVal.num 0) (JsVal.num threeHalves)
      = (demoStart, Except.ok none) ∧
    playTurnJS demoStart (JsVal.num oneHalf) (JsVal.num 0)
      = (demoStart, Except.error JsError.typeError) := by decide

/-- Claim C6 counterexample.  Before any `start()` the current player is
`null`, yet `getCurrentTurn` does not raise `NoActiveMatch`: it returns the
counter (1) unconditionally — the source's `getCurrentTurn` has no
null-check. -/
theorem c6_counterexample_current_turn_no_guard :
    initialState.currentPlayer = none ∧
    getCurrentTurn initialState = Except.ok 1 ∧
    getCurrentTurn initialState ≠ Except.error JsError.noActiveMatch := by decide

/-! ## Helper lemmas about lists and the board operations -/

theorem getD_eq_get? {α : Type} (l : List α) (n : Nat) (d : α) :
    l.getD n d = (l.get? n).getD d := by
  simp [List.getD_eq_getElem?_getD, List.get?_eq_getElem?]

theorem set_get?_self {α : Type} (l : List α) (n : Nat) (a : α)
    (h : l.get? n = some a) : l.set n a = l := by
  induction l generalizing n with
  | nil => simp at h
  | cons x xs ih =>
    cases n with
    | zero => simp_all
    | succ m => simp_all

theorem getD_mem_or_eq {α : Type} (l : List α) (n : Nat) (d : α) :
    l.getD n d ∈ l ∨ l.getD n d = d := by
  induction l generalizing n with
  | nil => simp
  | cons x xs ih =>
    cases n with
    | zero => simp
    | succ m =>
      rw [List.getD_cons_succ]
      rcases ih m with h | h
      · exact Or.inl (List.mem_cons_of_mem x h)
      · exact Or.inr h

theorem markGameboard_of_filled {width : Nat} {g : List (List String)} {mark : String}
    {r c : Nat} {row : List String} {cell : String}
    (hmk : marks.contains mark = true) (hr : r < width) (hc : c < width)
    (hrow : g.get? r = some row) (hcell : row.get? c = some cell) (hne : cell ≠ "") :
    Gameboard.markGameboard width g mark r c = Except.ok (g, false) := by
  have hmem : mark ∈ marks := by simpa using hmk
  rw [List.get?_eq_getElem?] at hrow hcell
  unfold Gameboard.markGameboard Gameboard.isValidRowOrColumnNumber
  simp [hmem, hr, hc, hrow, hcell, hne]

theorem markGameboard_of_empty {width : Nat} {g : List (List String)} {mark : String}
    {r c : Nat} {row : List String}
    (hmk : marks.contains mark = true) (hr : r < width) (hc : c < width)
    (hrow : g.get? r = some row) (hcell : row.get? c = some "") :
    Gameboard.markGameboard width g mark r c
      = Except.ok (g.set r (row.set c mark), true) := by
  have hmem : mark ∈ marks := by simpa using hmk
  rw [List.get?_eq_getElem?] at hrow hcell
  unfold Gameboard.markGameboard Gameboard.isValidRowOrColumnNumber
  simp [hmem, hr, hc, hrow, hcell]

theorem markGameboard_of_out_of_range {width : Nat} {g : List (List String)}
    {mark : String} {r c : Nat}
    (hmk : marks.contains mark = true) (hout : width ≤ r ∨ width ≤ c) :
    Gameboard.markGameboard width g mark r c = Except.error JsError.outOfBounds := by
  have hmem : mark ∈ marks := by simpa using hmk
  unfold Gameboard.markGameboard Gameboard.isValidRowOrColumnNumber
  rcases hout with h | h <;> simp [hmem, Nat.not_lt.mpr h]

theorem markGameboard_ok_true_inv {width : Nat} {g : List (List String)} {mark : String}
    {r c : Nat} {g' : List (List String)}
    (h : Gameboard.markGameboard width g mark r c = Except.ok (g', true)) :
    marks.contains mark = true ∧ r < width ∧ c < width ∧
    ∃ row, g.get? r = some row ∧ row.get? c = some "" ∧
      g' = g.set r (row.set c mark) := by
  unfold Gameboard.markGameboard Gameboard.isValidRowOrColumnNumber at h
  split at h
  · exact absurd h (by simp)
  · split at h
    · exact absurd h (by simp)
    · rename_i hmk hvalid
      rw [not_not] at hmk hvalid
      rw [Bool.and_eq_true, decide_eq_true_eq, decide_eq_true_eq] at hvalid
      refine ⟨hmk, hvalid.1, hvalid.2, ?_⟩
      split at h
      · exact absurd h (by simp)
      · rename_i row hrow
        split at h
        · exact absurd h (by simp)
        · rename_i cell hcell
          split at h
          · exact absurd h (by simp)
          · rename_i hcellEmpty
            rw [not_not] at hcellEmpty
            subst hcellEmpty
            refine ⟨row, hrow, hcell, ?_⟩
            have := Except.ok.inj h
            exact (Prod.mk.injEq _ _ _ _ ▸ this).1.symm

theorem playTurn_of_filled {s : GameState} {p : Player} {r c : Nat}
    {row : List String} {cell : String}
    (hp : s.currentPlayer = some p) (hmk : marks.contains p.mark = true)
    (hr : r < s.width) (hc : c < s.width)
    (hrow : s.gameboard.get? r = some row) (hcell : row.get? c = some cell)
    (hne : cell ≠ "") :
    playTurn s r c = (s, Except.ok none) := by
  have hm := markGameboard_of_filled (g := s.gameboard) hmk hr hc hrow hcell hne
  unfold playTurn
  simp [hp, hm]
  rw [← hp]

theorem playTurn_of_out_of_range {s : GameState} {p : Player} {r c : Nat}
    (hp : s.currentPlayer = some p) (hmk : marks.contains p.mark = true)
    (hout : s.width ≤ r ∨ s.width ≤ c) :
    playTurn s r c = (s, Except.error JsError.outOfBounds) := by
  have hm := markGameboard_of_out_of_range (g := s.gameboard) hmk hout
  unfold playTurn
  simp [hp, hm]

/-- Full characterization of a `playTurn` call that returned a result record:
the current player marked the previously empty in-bounds cell, the returned
record is `markResult` on the updated grid, and the player/turn bookkeeping
is determined by whether the result was `NONE`. -/
theorem playTurn_ok_some_inv {s : GameState} {r c : Nat} {s' : GameState}
    {tr : TurnResultData}
    (h : playTurn s r c = (s', Except.ok (some tr))) :
    ∃ p g', s.currentPlayer = some p ∧
      Gameboard.markGameboard s.width s.gameboard p.mark r c = Except.ok (g', true) ∧
      tr = markResult { s with gameboard := g' } p.mark r c ∧
      ((tr.result = allResults.NONE ∧
          s' = { s with
                 gameboard := g',
                 currentPlayer := some (if s.players.indexOf p = s.players.length - 1
                     then s.players.getD 0 p
                     else s.players.getD (s.players.indexOf p + 1) p),
                 currentTurn := s.currentTurn + 1 })
       ∨ (tr.result ≠ allResults.NONE ∧ s' = { s with gameboard := g' })) := by
  unfold playTurn at h
  cases hp : s.currentPlayer with
  | none =>
    simp only [hp] at h
    exact absurd (congrArg Prod.snd h) (by simp)
  | some p =>
    simp only [hp] at h
    cases hmg : Gameboard.markGameboard s.width s.gameboard p.mark r c with
    | error e =>
      simp only [hmg] at h
      exact absurd (congrArg Prod.snd h) (by simp)
    | ok pair =>
      obtain ⟨g, endTurn⟩ := pair
      simp only [hmg] at h
      cases endTurn with
      | false =>
        simp only [Bool.false_eq_true, if_false] at h
        exact absurd (congrArg Prod.snd h) (by simp)
      | true =>
        simp only [if_true] at h
        rw [← hp] at h
        by_cases hres : (markResult { s with gameboard := g } p.mark r c).result
            = allResults.NONE
        · rw [if_pos hres] at h
          have h1 := congrArg Prod.fst h
          have h2 := congrArg Prod.snd h
          simp only at h1 h2
          rw [hp] at h2 hres
          have h3 := Option.some.inj (Except.ok.inj h2)
          exact ⟨p, g, rfl, hmg, h3.symm, Or.inl ⟨h3 ▸ hres, h1.symm⟩⟩
        · rw [if_neg hres] at h
          have h1 := congrArg Prod.fst h
          have h2 := congrArg Prod.snd h
          simp only at h1 h2
          rw [hp] at h1 h2 hres
          have h3 := Option.some.inj (Except.ok.inj h2)
          exact ⟨p, g, rfl, hmg, h3.symm, Or.inr ⟨h3 ▸ hres, h1.symm⟩⟩

theorem get?_some_lt {α : Type} {l : List α} {n : Nat} {a : α}
    (h : l.get? n = some a) : n < l.length := by
  induction l generalizing n with
  | nil => simp at h
  | cons x xs ih =>
    cases n with
    | zero => simp
    | succ m =>
      simp only [List.get?] at h
      exact Nat.succ_lt_succ (ih h)

/-- The `nextPlayer` computation of `playTurn` on a two-element player list:
each player's successor is the other player. -/
theorem nextPlayer_two {p0 p1 : Player} (hne : p0 ≠ p1) :
    ((if [p0, p1].indexOf p0 = [p0, p1].length - 1 then [p0, p1].getD 0 p0
      else [p0, p1].getD ([p0, p1].indexOf p0 + 1) p0) = p1) ∧
    ((if [p0, p1].indexOf p1 = [p0, p1].length - 1 then [p0, p1].getD 0 p1
      else [p0, p1].getD ([p0, p1].indexOf p1 + 1) p1) = p0) := by
  constructor
  · have h0 : [p0, p1].indexOf p0 = 0 := List.indexOf_cons_self p0 [p1]
    simp [h0]
  · have h1 : [p0, p1].indexOf p1 = 1 := by
      simp [List.indexOf_cons, hne]
    simp [h1]

/-- Claim C7: after a successful mark whose evaluation is `NONE`, the current
player switches to the other of the two players and the turn counter
increments by exactly one; after a successful mark evaluated `Win`/`Draw`,
both are left unchanged. -/
theorem c7_turn_alternation {s : GameState} {p0 p1 : Player} {r c : Nat}
    {s' : GameState} {tr : TurnResultData}
    (hps : s.players = [p0, p1]) (hne : p0 ≠ p1)
    (h : playTurn s r c = (s', Except.ok (some tr))) :
    (tr.result = allResults.NONE →
      s'.currentTurn = s.currentTurn + 1 ∧
      (s.currentPlayer = some p0 → s'.currentPlayer = some p1) ∧
      (s.currentPlayer = some p1 → s'.currentPlayer = some p0)) ∧
    (tr.result ≠ allResults.NONE →
      s'.currentTurn = s.currentTurn ∧ s'.currentPlayer = s.currentPlayer) := by
  obtain ⟨p, g', hp, hmg, htr, hcase⟩ := playTurn_ok_some_inv h
  rcases hcase with ⟨hres, hs'⟩ | ⟨hres, hs'⟩
  · subst hs'
    refine ⟨fun _ => ⟨rfl, ?_, ?_⟩, fun hn => absurd hres hn⟩
    · intro hp0
      have hpp : p = p0 := by rw [hp] at hp0; exact Option.some.inj hp0
      subst hpp
      show some (if s.players.indexOf p = s.players.length - 1
          then s.players.getD 0 p else s.players.getD (s.players.indexOf p + 1) p) = some p1
      rw [hps]
      exact congrArg some (nextPlayer_two hne).1
    · intro hp1
      have hpp : p = p1 := by rw [hp] at hp1; exact Option.some.inj hp1
      subst hpp
      show some (if s.players.indexOf p = s.players.length - 1
          then s.players.getD 0 p else s.players.getD (s.players.indexOf p + 1) p) = some p0
      rw [hps]
      exact congrArg some (nextPlayer_two hne).2
  · subst hs'
    exact ⟨fun hyes => absurd hyes hres, fun _ => ⟨rfl, rfl⟩⟩

/-- Claim C7 witness: on the fresh width-3 match, X's first mark at (0,0)
evaluates `NONE`, the turn counter goes from 1 to 2 and the current player
switches from `("A","X")` to `("B","O")`. -/
theorem c7_turn_alternation_witness :
    (playTurn demoStart 0 0).2 = Except.ok (some { result := allResults.NONE }) ∧
    (playTurn demoStart 0 0).1.currentTurn = 2 ∧
    (playTurn demoStart 0 0).1.currentPlayer = some ⟨"B", "O"⟩ := by
  have h := @c7_turn_alternation demoStart ⟨"A", "X"⟩ ⟨"B", "O"⟩ 0 0
      (playTurn demoStart 0 0).1 { result := allResults.NONE }
      (by decide) (by decide) (by decide)
  obtain ⟨h1, h2, _⟩ := h.1 rfl
  exact ⟨by decide, h1.trans (by decide), h2 (by decide)⟩

/-- Claim C9: for an in-bounds cell of an active match's board, marking an
empty cell writes the acting player's mark into exactly that cell and signals
"turn advanced" (`true`), while marking a non-empty cell leaves the grid
untouched, signals "turn not advanced" (`false`), and makes `playTurn` return
`undefined` with the whole match state unchanged. -/
theorem c9_mark_empty_or_occupied {s : GameState} {p : Player} {r c : Nat}
    {row : List String} {cell : String}
    (hp : s.currentPlayer = some p) (hmk : marks.contains p.mark = true)
    (hr : r < s.width) (hc : c < s.width)
    (hrow : s.gameboard.get? r = some row) (hcell : row.get? c = some cell) :
    (cell = "" →
      Gameboard.markGameboard s.width s.gameboard p.mark r c
        = Except.ok (s.gameboard.set r (row.set c p.mark), true) ∧
      ((s.gameboard.set r (row.set c p.mark)).get? r).bind (fun q => q.get? c)
        = some p.mark ∧
      (∀ i j, i ≠ r ∨ j ≠ c →
        ((s.gameboard.set r (row.set c p.mark)).get? i).bind (fun q => q.get? j)
          = (s.gameboard.get? i).bind (fun q => q.get? j))) ∧
    (cell ≠ "" →
      Gameboard.markGameboard s.width s.gameboard p.mark r c
        = Except.ok (s.gameboard, false) ∧
      playTurn s r c = (s, Except.ok none)) := by
  have hrlen : r < s.gameboard.length := get?_some_lt hrow
  have hclen : c < row.length := get?_some_lt hcell
  constructor
  · intro hecell
    subst hecell
    refine ⟨markGameboard_of_empty hmk hr hc hrow hcell, ?_, ?_⟩
    · rw [List.get?_set_eq_of_lt _ hrlen]
      simp only [Option.some_bind]
      rw [List.get?_set_eq_of_lt _ (by simpa using hclen)]
    · intro i j hij
      by_cases hi : i = r
      · subst hi
        rcases hij with hij | hij
        · exact absurd rfl hij
        · rw [List.get?_set_eq_of_lt _ hrlen, hrow]
          simp only [Option.some_bind]
          rw [List.get?_set_ne _ _ (fun hcj => hij hcj.symm)]
      · rw [List.get?_set_ne _ _ (fun hir => hi hir.symm)]
  · intro hne
    exact ⟨markGameboard_of_filled hmk hr hc hrow hcell hne,
           playTurn_of_filled hp hmk hr hc hrow hcell hne⟩

/-- Claim C9 witness: on the fresh width-3 match, marking the empty (0,0)
writes "X" there and signals advanced; on `winState` (whose (0,0) holds "X"),
marking (0,0) signals not-advanced and `playTurn` returns `undefined` leaving
the state unchanged. -/
theorem c9_witness :
    Gameboard.markGameboard demoStart.width demoStart.gameboard "X" 0 0
      = Except.ok ([["X", "", ""], ["", "", ""], ["", "", ""]], true) ∧
    Gameboard.markGameboard winState.width winState.gameboard "X" 0 0
      = Except.ok (winState.gameboard, false) ∧
    playTurn winState 0 0 = (winState, Except.ok none) := by
  have h1 := @c9_mark_empty_or_occupied demoStart ⟨"A", "X"⟩ 0 0 ["", "", ""] ""
      (by decide) (by decide) (by decide) (by decide) (by decide) (by decide)
  have h2 := @c9_mark_empty_or_occupied winState ⟨"A", "X"⟩ 0 0 ["X", "X", "X"] "X"
      (by decide) (by decide) (by decide) (by decide) (by decide) (by decide)
  refine ⟨?_, (h2.2 (by decide)).1, (h2.2 (by decide)).2⟩
  have := (h1.1 rfl).1
  exact this.trans (by decide)

/-- Claim C3 (amended): in any state with an active current player (in
particular after a concluded outcome), a further `playTurn` on an already
non-empty in-bounds cell leaves the whole match state unchanged and returns
`undefined` (not a concluded result), and a `playTurn` with an out-of-range
coordinate raises the out-of-bounds error leaving the state unchanged.
(A further `playTurn` on a still-empty cell, by contrast, mutates state —
see the counterexample.) -/
theorem c3_amended_post_conclusion_calls {s : GameState} {p : Player}
    (hp : s.currentPlayer = some p) (hmk : marks.contains p.mark = true) :
    (∀ r c row cell, r < s.width → c < s.width →
      s.gameboard.get? r = some row → row.get? c = some cell → cell ≠ "" →
      playTurn s r c = (s, Except.ok none)) ∧
    (∀ r c, s.width ≤ r ∨ s.width ≤ c →
      playTurn s r c = (s, Except.error JsError.outOfBounds)) :=
  ⟨fun _ _ _ _ hr hc hrow hcell hne =>
      playTurn_of_filled hp hmk hr hc hrow hcell hne,
   fun _ _ hout => playTurn_of_out_of_range hp hmk hout⟩

/-- Claim C3 amended-claim witness, at the concluded `winState`: replaying the
occupied cell (0,0) is a state-preserving no-op returning `undefined`, and an
out-of-range call errors. -/
theorem c3_amended_witness :
    playTurn winState 0 0 = (winState, Except.ok none) ∧
    playTurn winState 5 0 = (winState, Except.error JsError.outOfBounds) := by
  have h := c3_amended_post_conclusion_calls (s := winState) (p := ⟨"A", "X"⟩)
      (by decide) (by decide)
  exact ⟨h.1 0 0 ["X", "X", "X"] "X" (by decide) (by decide) (by decide)
          (by decide) (by decide),
         h.2 5 0 (by decide)⟩

/-- Claim C5 (amended): the only coordinate validation `playTurn` performs up
front is the `typeof` check — any argument that is not a JS number (strings,
`undefined`, objects, ...) raises the coordinate-type error with the state
unchanged.  Fractional numbers pass this check (see the counterexample). -/
theorem c5_amended_typeof_guard (s : GameState) (rv cv : JsVal)
    (h : rv.isNum = false ∨ cv.isNum = false) :
    playTurnJS s rv cv = (s, Except.error JsError.coordType) := by
  unfold playTurnJS
  rcases h with h | h <;> simp [h]

/-- Claim C5 amended-claim witness: a string coordinate raises the
coordinate-type error and leaves the state unchanged. -/
theorem c5_amended_witness :
    playTurnJS demoStart (JsVal.str "0") (JsVal.num 0)
      = (demoStart, Except.error JsError.coordType) :=
  c5_amended_typeof_guard demoStart (JsVal.str "0") (JsVal.num 0) (Or.inl rfl)

/-- Claim C6 (amended): the three current-player accessors (name, mark,
1-based order) raise `NoActiveMatch` exactly when there is no current player
(before the first successful `start()`), and return normally otherwise;
`getCurrentTurn` never raises and returns the turn counter unconditionally. -/
theorem c6_amended_accessor_guards (s : GameState) :
    (s.currentPlayer = none →
      getCurrentPlayerName s = Except.error JsError.noActiveMatch ∧
      getCurrentPlayerMark s = Except.error JsError.noActiveMatch ∧
      getCurrentPlayerOrder s = Except.error JsError.noActiveMatch ∧
      getCurrentTurn s = Except.ok s.currentTurn) ∧
    (∀ p, s.currentPlayer = some p →
      getCurrentPlayerName s = Except.ok p.name ∧
      getCurrentPlayerMark s = Except.ok p.mark ∧
      getCurrentPlayerOrder s = Except.ok (s.players.indexOf p + 1) ∧
      getCurrentTurn s = Except.ok s.currentTurn) := by
  constructor
  · intro h
    unfold getCurrentPlayerName getCurrentPlayerMark getCurrentPlayerOrder getCurrentTurn
    rw [h]
    exact ⟨rfl, rfl, rfl, rfl⟩
  · intro p h
    unfold getCurrentPlayerName getCurrentPlayerMark getCurrentPlayerOrder getCurrentTurn
    rw [h]
    exact ⟨rfl, rfl, rfl, rfl⟩

/-- Claim C6 amended-claim witness: before any `start` the name accessor
raises `NoActiveMatch` while the turn accessor returns 1; after `start` the
name accessor returns normally. -/
theorem c6_amended_witness :
    getCurrentPlayerName initialState = Except.error JsError.noActiveMatch ∧
    getCurrentTurn initialState = Except.ok 1 ∧
    getCurrentPlayerName demoStart = Except.ok "A" := by
  have h1 := (c6_amended_accessor_guards initialState).1 rfl
  have h2 := (c6_amended_accessor_guards demoStart).2 ⟨"A", "X"⟩ (by decide)
  exact ⟨h1.1, h1.2.2.2, h2.1⟩

/-- The player-construction loop can only throw the invalid-player-name or
invalid-mark errors, never the wrong-player-count one. -/
theorem pushPlayers_error {names : List JsVal} {i : Nat} {acc ps : List Player}
    {e : JsError} (h : pushPlayers names i acc = (ps, some e)) :
    e = JsError.invalidPlayerName ∨ e = JsError.invalidMark := by
  induction names generalizing i acc with
  | nil => simp [pushPlayers] at h
  | cons n rest ih =>
    unfold pushPlayers at h
    cases hn : Player.make n (marks.getD i "") with
    | error e2 =>
      rw [hn] at h
      have he : e2 = e := Option.some.inj (Prod.mk.injEq .. ▸ h).2
      subst he
      cases n with
      | str nm =>
        simp only [Player.make] at hn
        split at hn
        · exact Or.inr (Except.error.inj hn).symm
        · exact absurd hn (by simp)
      | num q =>
        simp only [Player.make] at hn
        exact Or.inl (Except.error.inj hn).symm
      | other =>
        simp only [Player.make] at hn
        exact Or.inl (Except.error.inj hn).symm
    | ok p =>
      rw [hn] at h
      exact ih h

/-- Claim C4 (amended): when `start` raises an error, the board has already
been resized and cleared AND, whenever a previous match existed
(`players.length > 0`), the players, current player and turn counter have
already been reset (to `[]`/`null`/`1`) before the validation — a failed
validation does NOT leave the player/turn state as it was before the call.
Only from a fresh no-players state does a failed validation leave the
player/turn state untouched. -/
theorem c4_amended_start_error {s : GameState} {w : Nat} {names : List JsVal}
    {s' : GameState} {e : JsError}
    (h : start s w names = (s', some e)) :
    s'.width = w ∧ s'.gameboard = Gameboard.clear w ∧
    (0 < s.players.length →
      s'.currentPlayer = none ∧ s'.currentTurn = 1) ∧
    (s.players = [] →
      s'.currentPlayer = s.currentPlayer ∧ s'.currentTurn = s.currentTurn) ∧
    (e = JsError.wrongPlayerCount →
      s'.players = if 0 < s.players.length then [] else s.players) := by
  unfold start at h
  by_cases hpl : s.players.length > 0
  · have hne : ¬ s.players = [] := by
      intro hnil
      rw [hnil] at hpl
      exact absurd hpl (by simp)
    rw [if_pos hpl] at h
    by_cases hn : names.length ≠ marks.length
    · rw [if_pos hn] at h
      have h1 := congrArg Prod.fst h
      have h2 := congrArg Prod.snd h
      simp only at h1 h2
      subst h1
      exact ⟨rfl, rfl, fun _ => ⟨rfl, rfl⟩, fun hnil => absurd hnil hne,
        fun _ => by rw [if_pos hpl]⟩
    · rw [if_neg hn] at h
      rcases hpp : pushPlayers names 0 [] with ⟨ps, oe⟩
      rw [hpp] at h
      cases oe with
      | none => exact absurd (congrArg Prod.snd h) (by simp)
      | some e2 =>
        have h1 := congrArg Prod.fst h
        have h2 := congrArg Prod.snd h
        simp only at h1 h2
        subst h1
        refine ⟨rfl, rfl, fun _ => ⟨rfl, rfl⟩, fun hnil => absurd hnil hne, fun hwc => ?_⟩
        rw [← Option.some.inj h2] at hwc
        rcases pushPlayers_error hpp with h3 | h3 <;> rw [h3] at hwc <;> exact absurd hwc (by simp)
  · have hnil : s.players = [] := List.length_eq_zero.mp (Nat.eq_zero_of_not_pos hpl)
    rw [if_neg hpl] at h
    by_cases hn : names.length ≠ marks.length
    · rw [if_pos hn] at h
      have h1 := congrArg Prod.fst h
      have h2 := congrArg Prod.snd h
      simp only at h1 h2
      subst h1
      exact ⟨rfl, rfl, fun hp => absurd hp hpl, fun _ => ⟨rfl, rfl⟩,
        fun _ => by rw [if_neg hpl]⟩
    · rw [if_neg hn] at h
      rcases hpp : pushPlayers names 0 [] with ⟨ps, oe⟩
      rw [hpp] at h
      cases oe with
      | none => exact absurd (congrArg Prod.snd h) (by simp)
      | some e2 =>
        have h1 := congrArg Prod.fst h
        have h2 := congrArg Prod.snd h
        simp only at h1 h2
        subst h1
        refine ⟨rfl, rfl, fun hp => absurd hp hpl, fun _ => ⟨rfl, rfl⟩, fun hwc => ?_⟩
        rw [← Option.some.inj h2] at hwc
        rcases pushPlayers_error hpp with h3 | h3 <;> rw [h3] at hwc <;> exact absurd hwc (by simp)

/-- Claim C4 amended-claim witness: from the state one turn into a width-3
match (turn 2, two players), `start(3, "A")` fails the count validation and
leaves the board cleared, the players reset to `[]`, the current player
`null` and the turn counter reset to 1. -/
theorem c4_amended_witness :
    (start (playTurn demoStart 0 0).1 3 [JsVal.str "A"]).1.width = 3 ∧
    (start (playTurn demoStart 0 0).1 3 [JsVal.str "A"]).1.gameboard
      = Gameboard.clear 3 ∧
    (start (playTurn demoStart 0 0).1 3 [JsVal.str "A"]).1.currentPlayer = none ∧
    (start (playTurn demoStart 0 0).1 3 [JsVal.str "A"]).1.currentTurn = 1 ∧
    (start (playTurn demoStart 0 0).1 3 [JsVal.str "A"]).1.players = [] := by
  have h := @c4_amended_start_error (playTurn demoStart 0 0).1 3 [JsVal.str "A"]
      (start (playTurn demoStart 0 0).1 3 [JsVal.str "A"]).1
      JsError.wrongPlayerCount (by decide)
  refine ⟨h.1, h.2.1, (h.2.2.1 (by decide)).1, (h.2.2.1 (by decide)).2, ?_⟩
  exact (h.2.2.2.2 rfl).trans (by decide)

/-- Building the two players from two string names succeeds and pairs them
positionally with the marks. -/
theorem pushPlayers_two_strings (a b : String) :
    pushPlayers [JsVal.str a, JsVal.str b] 0 []
      = ([⟨a, "X"⟩, ⟨b, "O"⟩], none) := by
  have hX : isAValidMark "X" = true := by decide
  have hO : isAValidMark "O" = true := by decide
  simp [pushPlayers, Player.make, marks, hX, hO]

/-- Claim C8: immediately after a successful `start(W, a, b)` the board is a
W-by-W grid of empty cells, the turn counter is 1, the players are paired
positionally with the marks, and the current player is the one holding the
first-playing mark.  (The pre-call state need only be quiescent: `currentTurn
= 1` whenever no players exist, which holds of every reachable state.) -/
theorem c8_start_postconditions (s : GameState) (w : Nat) (a b : String)
    (hw : 2 ≤ w) (hq : s.players = [] → s.currentTurn = 1) :
    ∃ s', start s w [JsVal.str a, JsVal.str b] = (s', none) ∧
      s'.width = w ∧ s'.gameboard.length = w ∧
      (∀ row ∈ s'.gameboard, row.length = w ∧ ∀ cell ∈ row, cell = "") ∧
      s'.currentTurn = 1 ∧
      s'.players = [⟨a, firstPlayingMark⟩, ⟨b, "O"⟩] ∧
      s'.currentPlayer = some ⟨a, firstPlayingMark⟩ := by
  have hlen : ¬ ([JsVal.str a, JsVal.str b].length ≠ marks.length) := by
    simp [marks]
  have hboard : ∀ row ∈ Gameboard.clear w, row.length = w ∧ ∀ cell ∈ row, cell = "" := by
    intro row hrow
    have := List.eq_of_mem_replicate hrow
    subst this
    exact ⟨List.length_replicate .., fun cell hc => List.eq_of_mem_replicate hc⟩
  by_cases hpl : s.players.length > 0
  · refine ⟨{ width := w, gameboard := Gameboard.clear w,
              players := [⟨a, "X"⟩, ⟨b, "O"⟩],
              currentPlayer := some ⟨a, "X"⟩, currentTurn := 1 }, ?_, rfl, ?_, hboard,
            rfl, rfl, rfl⟩
    · unfold start
      rw [if_pos hpl, if_neg hlen, pushPlayers_two_strings]
      rfl
    · exact List.length_replicate ..
  · have hnil : s.players = [] := List.length_eq_zero.mp (Nat.eq_zero_of_not_pos hpl)
    refine ⟨{ width := w, gameboard := Gameboard.clear w,
              players := [⟨a, "X"⟩, ⟨b, "O"⟩],
              currentPlayer := some ⟨a, "X"⟩, currentTurn := s.currentTurn }, ?_, rfl, ?_,
            hboard, hq hnil, rfl, rfl⟩
    · unfold start
      rw [if_neg hpl, if_neg hlen, pushPlayers_two_strings]
      rfl
    · exact List.length_replicate ..

/-- Claim C8 witness: the concrete `start(3, "A", "B")` from the module-load
state. -/
theorem c8_witness :
    ∃ s', start initialState 3 [JsVal.str "A", JsVal.str "B"] = (s', none) ∧
      s'.width = 3 ∧ s'.gameboard.length = 3 ∧
      (∀ row ∈ s'.gameboard, row.length = 3 ∧ ∀ cell ∈ row, cell = "") ∧
      s'.currentTurn = 1 ∧
      s'.players = [⟨"A", firstPlayingMark⟩, ⟨"B", "O"⟩] ∧
      s'.currentPlayer = some ⟨"A", firstPlayingMark⟩ :=
  c8_start_postconditions initialState 3 "A" "B" (by decide) (fun _ => rfl)

/-- `playTurn` never changes the players list. -/
theorem playTurn_players_eq (s : GameState) (r c : Nat) :
    (playTurn s r c).1.players = s.players := by
  unfold playTurn
  split
  · rfl
  · split
    · rfl
    · dsimp only
      split
      · split
        · rfl
        · rfl
      · rfl

/-- After `playTurn`, the current player is either unchanged or an element
`players.getD n p` computed from the previous current player `p`. -/
theorem playTurn_currentPlayer_cases (s : GameState) (r c : Nat) :
    (playTurn s r c).1.currentPlayer = s.currentPlayer ∨
    ∃ p n, s.currentPlayer = some p ∧
      (playTurn s r c).1.currentPlayer = some (s.players.getD n p) := by
  unfold playTurn
  split
  · exact Or.inl rfl
  · rename_i p hp
    split
    · exact Or.inl rfl
    · dsimp only
      split
      · split
        · by_cases hidx : s.players.indexOf p = s.players.length - 1
          · exact Or.inr ⟨p, 0, hp, by rw [if_pos hidx]⟩
          · exact Or.inr ⟨p, s.players.indexOf p + 1, hp, by rw [if_neg hidx]⟩
        · exact Or.inl (by rw [hp])
      · exact Or.inl (by rw [hp])

/-- Every state reachable in a started match has all player marks (including
the current player's) drawn from the recognized `marks`. -/
theorem activeMatch_marksOK {s : GameState} (hs : ActiveMatch s) : marksOK s := by
  induction hs with
  | started s0 w names s' h =>
    unfold start at h
    have hmk : ∀ i, isAValidMark (marks.getD i "") = true →
        marks.contains (marks.getD i "") = true := by
      intro i hv
      match i with
      | 0 => decide
      | 1 => decide
      | (n + 2) =>
        rw [show marks.getD (n + 2) "" = "" from rfl] at hv
        exact absurd hv (by decide)
    have hpush : ∀ names2 i acc ps, pushPlayers names2 i acc = (ps, none) →
        (∀ p ∈ acc, marks.contains p.mark = true) →
        ∀ p ∈ ps, marks.contains p.mark = true := by
      intro names2
      induction names2 with
      | nil =>
        intro i acc ps hp hacc
        unfold pushPlayers at hp
        have := congrArg Prod.fst hp
        simp only at this
        rw [← this]
        exact hacc
      | cons n rest ih =>
        intro i acc ps hp hacc
        unfold pushPlayers at hp
        cases hn : Player.make n (marks.getD i "") with
        | error e2 =>
          rw [hn] at hp
          exact absurd (Prod.mk.injEq .. ▸ hp).2 (by simp)
        | ok p =>
          rw [hn] at hp
          refine ih (i + 1) (acc ++ [p]) ps hp ?_
          intro q hq
          rcases List.mem_append.mp hq with hq | hq
          · exact hacc q hq
          · have hqp : q = p := by simpa using hq
            subst hqp
            cases n with
            | str nm =>
              simp only [Player.make] at hn
              split at hn
              · exact absurd hn (by simp)
              · rename_i hv
                rw [not_not] at hv
                rw [← Except.ok.inj hn]
                exact hmk i hv
            | num q2 => exact absurd hn (by simp [Player.make])
            | other => exact absurd hn (by simp [Player.make])
    by_cases hpl : s0.players.length > 0 <;>
      [rw [if_pos hpl] at h; rw [if_neg hpl] at h] <;>
    · by_cases hn : names.length ≠ marks.length
      · rw [if_pos hn] at h
        exact absurd (congrArg Prod.snd h) (by simp)
      · rw [if_neg hn] at h
        rcases hpp : pushPlayers names 0 [] with ⟨ps, oe⟩
        rw [hpp] at h
        cases oe with
        | some e2 => exact absurd (congrArg Prod.snd h) (by simp)
        | none =>
          have h1 := congrArg Prod.fst h
          simp only at h1
          subst h1
          have hall := hpush names 0 [] ps hpp (by simp)
          refine ⟨hall, fun p hp => ?_⟩
          have hmem : ps.head? = some p → p ∈ ps := by
            intro hh
            cases ps with
            | nil => simp at hh
            | cons q qs =>
              rw [show q :: qs = [q] ++ qs from rfl]
              simp only [List.head?] at hh
              rw [← Option.some.inj hh]
              exact List.mem_cons_self q qs
          exact hall p (hmem hp)
  | stepped s0 r c hs0 ih =>
    obtain ⟨hplayers, hcur⟩ := ih
    refine ⟨by rw [playTurn_players_eq]; exact hplayers, fun q hq => ?_⟩
    rcases playTurn_currentPlayer_cases s0 r c with hsame | ⟨p, n, hp, hnew⟩
    · exact hcur q (hsame ▸ hq)
    · rw [hnew] at hq
      rw [← Option.some.inj hq]
      rcases getD_mem_or_eq s0.players n p with hm | hm
      · exact hplayers _ hm
      · rw [hm]; exact hcur p hp

/-- Claim C10: in every match created via a successful `start()` (and any
sequence of further `playTurn` calls), the current player's stored mark is a
recognized one, so the `InvalidMark` branch of the board's mark operation is
unreachable through `playTurn`: `playTurn` never raises `InvalidMark`. -/
theorem c10_playTurn_never_invalid_mark {s : GameState} (hs : ActiveMatch s)
    (r c : Nat) : (playTurn s r c).2 ≠ Except.error JsError.invalidMark := by
  obtain ⟨hplayers, hcur⟩ := activeMatch_marksOK hs
  unfold playTurn
  split
  · simp
  · rename_i p hp
    have hpm := hcur p hp
    cases hmg : Gameboard.markGameboard s.width s.gameboard p.mark r c with
    | error e =>
      have he : e ≠ JsError.invalidMark := by
        unfold Gameboard.markGameboard at hmg
        split at hmg
        · rename_i hcon
          exact absurd hpm hcon
        · split at hmg
          · rw [← Except.error.inj hmg]
            decide
          · split at hmg
            · rw [← Except.error.inj hmg]
              decide
            · split at hmg
              · exact absurd hmg (by simp)
              · split at hmg
                · exact absurd hmg (by simp)
                · exact absurd hmg (by simp)
      simp [he]
    | ok pair =>
      obtain ⟨g, endTurn⟩ := pair
      dsimp only
      split
      · split <;> simp
      · simp

/-- Claim C10 witness: on the concrete match from `start(3,"A","B")`,
`playTurn(0,0)` does not raise `InvalidMark`. -/
theorem c10_witness :
    (playTurn demoStart 0 0).2 ≠ Except.error JsError.invalidMark :=
  c10_playTurn_never_invalid_mark
    (ActiveMatch.started initialState 3 [JsVal.str "A", JsVal.str "B"] demoStart
      (by decide)) 0 0

/-! ## Counting lemmas for the win/draw equivalence -/

theorem sum_map_set {α : Type} (f : α → Nat) :
    ∀ (g : List α) (r : Nat) (x : α), g.get? r = some x → ∀ nr : α,
      ((g.set r nr).map f).sum + f x = (g.map f).sum + f nr := by
  intro g
  induction g with
  | nil => intro r x hx; simp at hx
  | cons y ys ih =>
    intro r x hx nr
    cases r with
    | zero =>
      simp only [List.get?] at hx
      rw [Option.some.inj hx]
      simp [List.set]
      omega
    | succ m =>
      simp only [List.get?] at hx
      simp only [List.set, List.map_cons, List.sum_cons]
      have := ih m x hx nr
      omega

theorem count_set_of_empty {row : List String} {c : Nat} {m : String}
    (hcell : row.get? c = some "") (hm : m ≠ "") :
    (row.set c m).count m = row.count m + 1 ∧
    (∀ m2, m2 ≠ m → m2 ≠ "" → (row.set c m).count m2 = row.count m2) ∧
    (row.set c m).countP (fun cell => cell != "") =
      row.countP (fun cell => cell != "") + 1 := by
  induction row generalizing c with
  | nil => simp at hcell
  | cons x xs ih =>
    cases c with
    | zero =>
      simp only [List.get?] at hcell
      have hx : x = "" := Option.some.inj hcell
      subst hx
      refine ⟨?_, ?_, ?_⟩
      · have hne : ¬ ("" = m) := fun hh => hm hh.symm
        simp [List.set, List.count_cons, hne]
      · intro m2 hne2 hne3
        have h1 : ¬ (m = m2) := fun hh => hne2 hh.symm
        have h2 : ¬ ("" = m2) := fun hh => hne3 hh.symm
        simp [List.set, List.count_cons, h1, h2]
      · have hb : (m != "") = true := by simpa using hm
        simp [List.set, List.countP_cons, hb]
    | succ k =>
      simp only [List.get?] at hcell
      obtain ⟨h1, h2, h3⟩ := ih hcell
      refine ⟨?_, ?_, ?_⟩
      · simp [List.set, List.count_cons, h1]
        omega
      · intro m2 hne2 hne3
        simp [List.set, List.count_cons, h2 m2 hne2 hne3]
      · simp [List.set, List.countP_cons, h3]
        omega

theorem boardCount_set_of_empty {g : List (List String)} {r c : Nat}
    {row : List String} {m : String}
    (hrow : g.get? r = some row) (hcell : row.get? c = some "") (hm : m ≠ "") :
    boardCount (g.set r (row.set c m)) m = boardCount g m + 1 ∧
    (∀ m2, m2 ≠ m → m2 ≠ "" →
      boardCount (g.set r (row.set c m)) m2 = boardCount g m2) ∧
    totalMarked (g.set r (row.set c m)) = totalMarked g + 1 := by
  obtain ⟨h1, h2, h3⟩ := count_set_of_empty hcell hm
  refine ⟨?_, ?_, ?_⟩
  · have := sum_map_set (fun q => q.count m) g r row hrow (row.set c m)
    unfold boardCount
    omega
  · intro m2 hne2 hne3
    have := sum_map_set (fun q => q.count m2) g r row hrow (row.set c m)
    unfold boardCount
    rw [h2 m2 hne2 hne3] at this
    omega
  · have := sum_map_set (fun q => q.countP (fun cell => cell != "")) g r row hrow
      (row.set c m)
    unfold totalMarked
    omega

/-- A mark that fills some actual row occurs at least `w` times on the board. -/
theorem count_ge_of_row_full {g : List (List String)} {m : String} {i w : Nat}
    (hlen : g.length = w) (hrowlen : ∀ q ∈ g, q.length = w) (hi : i < w)
    (hfull : isFilledWith (allSquareMatrixLines.row g i) m = true) :
    w ≤ boardCount g m := by
  have hi2 : i < g.length := hlen ▸ hi
  obtain ⟨q, hq⟩ : ∃ q, g.get? i = some q := by
    cases hg : g.get? i with
    | none => exact absurd (List.get?_eq_none.mp hg) (by omega)
    | some q => exact ⟨q, rfl⟩
  have hrowi : allSquareMatrixLines.row g i = q := by
    unfold allSquareMatrixLines.row
    rw [getD_eq_get?, hq]
    rfl
  have hmem : q ∈ g := List.get?_mem hq
  have hcount : q.count m = w := by
    rw [hrowi] at hfull
    unfold isFilledWith at hfull
    rw [List.all_eq_true] at hfull
    have : ∀ b ∈ q, m = b := by
      intro b hb
      exact (beq_iff_eq.mp (hfull b hb)).symm
    rw [List.count_eq_length.mpr this]
    exact hrowlen q hmem
  have : q.count m ≤ boardCount g m := by
    unfold boardCount
    exact List.single_le_sum (fun y _ => Nat.zero_le y) _
      (List.mem_map.mpr ⟨q, hmem, rfl⟩)
  omega

/-- A mark present in every row occurs at least `w` times on the board. -/
theorem count_ge_of_mem_all_rows {g : List (List String)} {m : String}
    (hall : ∀ q ∈ g, m ∈ q) : g.length ≤ boardCount g m := by
  induction g with
  | nil => simp [boardCount]
  | cons x xs ih =>
    have hx : 0 < x.count m :=
      List.count_pos_iff_mem.mpr (hall x (List.mem_cons_self x xs))
    have := ih (fun q hq => hall q (List.mem_cons_of_mem x hq))
    unfold boardCount at *
    simp only [List.map_cons, List.sum_cons, List.length_cons]
    omega

/-! ## Line-extraction lemmas -/

theorem isFilledWith_iff {l : List String} {m : String} :
    isFilledWith l m = true ↔ ∀ x ∈ l, x = m := by
  unfold isFilledWith
  rw [List.all_eq_true]
  constructor
  · intro h x hx; exact beq_iff_eq.mp (h x hx)
  · intro h x hx; exact beq_iff_eq.mpr (h x hx)

theorem isFilledWith_false_of_mem {l : List String} {m x : String}
    (hx : x ∈ l) (hne : x ≠ m) : isFilledWith l m = false := by
  cases hfill : isFilledWith l m with
  | false => rfl
  | true => exact absurd (isFilledWith_iff.mp hfill x hx) hne

theorem row_of_get? {g : List (List String)} {r : Nat} {q : List String}
    (h : g.get? r = some q) : allSquareMatrixLines.row g r = q := by
  unfold allSquareMatrixLines.row
  rw [getD_eq_get?, h]
  rfl

theorem row_set_ne {g : List (List String)} {r i : Nat} (nr : List String)
    (hne : i ≠ r) :
    allSquareMatrixLines.row (g.set r nr) i = allSquareMatrixLines.row g i := by
  unfold allSquareMatrixLines.row
  rw [getD_eq_get?, getD_eq_get?, List.get?_set_ne _ _ (fun hh => hne hh.symm)]

theorem row_set_eq {g : List (List String)} {r : Nat} (nr : List String)
    (hr : r < g.length) :
    allSquareMatrixLines.row (g.set r nr) r = nr := by
  unfold allSquareMatrixLines.row
  rw [getD_eq_get?, List.get?_set_eq_of_lt _ hr]
  rfl

theorem column_get? {g : List (List String)} {j i : Nat} :
    (allSquareMatrixLines.column g j).get? i
      = (g.get? i).map (fun q => q.getD j "") := by
  unfold allSquareMatrixLines.column
  rw [List.get?_map]

theorem column_set_ne {g : List (List String)} {r c j : Nat} {row : List String}
    {m : String} (hrow : g.get? r = some row) (hne : j ≠ c) :
    allSquareMatrixLines.column (g.set r (row.set c m)) j
      = allSquareMatrixLines.column g j := by
  unfold allSquareMatrixLines.column
  rw [List.map_set]
  have h1 : (row.set c m).getD j "" = row.getD j "" := by
    rw [getD_eq_get?, getD_eq_get?, List.get?_set_ne _ _ (fun hh => hne hh.symm)]
  rw [h1]
  apply set_get?_self
  rw [List.get?_map, hrow]
  rfl

theorem mainDiagonal_get? {g : List (List String)} {i : Nat} (hi : i < g.length) :
    (allSquareMatrixLines.mainDiagonal g).get? i
      = some ((g.getD i []).getD i "") := by
  unfold allSquareMatrixLines.mainDiagonal
  rw [List.get?_map, List.get?_range hi]
  rfl

theorem antiDiagonal_get? {g : List (List String)} {i : Nat} (hi : i < g.length) :
    (allSquareMatrixLines.antiDiagonal g).get? i
      = some ((g.getD i []).getD (g.length - 1 - i) "") := by
  unfold allSquareMatrixLines.antiDiagonal
  rw [List.get?_map, List.get?_range hi]
  rfl

theorem mainDiagonal_set_off {g : List (List String)} {r c : Nat}
    {row : List String} {m : String}
    (hrow : g.get? r = some row) (hne : r ≠ c) :
    allSquareMatrixLines.mainDiagonal (g.set r (row.set c m))
      = allSquareMatrixLines.mainDiagonal g := by
  unfold allSquareMatrixLines.mainDiagonal
  rw [List.length_set]
  apply List.map_eq_map_iff.mpr
  intro i hi
  by_cases hir : i = r
  · subst hir
    have h1 : (g.set i (row.set c m)).getD i [] = row.set c m := by
      rw [getD_eq_get?, List.get?_set_eq_of_lt _ (get?_some_lt hrow)]
      rfl
    have h2 : g.getD i [] = row := by
      rw [getD_eq_get?, hrow]
      rfl
    rw [h1, h2, getD_eq_get?, getD_eq_get?,
      List.get?_set_ne _ _ (fun hh => hne hh.symm)]
  · have h1 : (g.set r (row.set c m)).getD i [] = g.getD i [] := by
      rw [getD_eq_get?, getD_eq_get?, List.get?_set_ne _ _ (fun hh => hir hh.symm)]
    rw [h1]

theorem antiDiagonal_set_off {g : List (List String)} {r c : Nat}
    {row : List String} {m : String}
    (hrow : g.get? r = some row) (hne : r + c ≠ g.length - 1) :
    allSquareMatrixLines.antiDiagonal (g.set r (row.set c m))
      = allSquareMatrixLines.antiDiagonal g := by
  have hrl : r < g.length := get?_some_lt hrow
  unfold allSquareMatrixLines.antiDiagonal
  rw [List.length_set]
  apply List.map_eq_map_iff.mpr
  intro i hi
  by_cases hir : i = r
  · subst hir
    have h1 : (g.set i (row.set c m)).getD i [] = row.set c m := by
      rw [getD_eq_get?, List.get?_set_eq_of_lt _ hrl]
      rfl
    have h2 : g.getD i [] = row := by
      rw [getD_eq_get?, hrow]
      rfl
    have hcc : g.length - 1 - i ≠ c := by omega
    rw [h1, h2, getD_eq_get?, getD_eq_get?,
      List.get?_set_ne _ _ (fun hh => hcc hh.symm)]
  · have h1 : (g.set r (row.set c m)).getD i [] = g.getD i [] := by
      rw [getD_eq_get?, getD_eq_get?, List.get?_set_ne _ _ (fun hh => hir hh.symm)]
    rw [h1]

theorem getD_mem_of_lt {α : Type} {l : List α} {n : Nat} (d : α)
    (h : n < l.length) : l.getD n d ∈ l := by
  obtain ⟨x, hx⟩ : ∃ x, l.get? n = some x := by
    cases hg : l.get? n with
    | none => exact absurd (List.get?_eq_none.mp hg) (by omega)
    | some x => exact ⟨x, rfl⟩
  rw [getD_eq_get?, hx]
  exact List.get?_mem hx

theorem count_ge_of_column_full {g : List (List String)} {m : String} {j w : Nat}
    (hlen : g.length = w) (hrowlen : ∀ q ∈ g, q.length = w) (hj : j < w)
    (hfull : isFilledWith (allSquareMatrixLines.column g j) m = true) :
    w ≤ boardCount g m := by
  have hall : ∀ q ∈ g, m ∈ q := by
    intro q hq
    have hval : q.getD j "" = m :=
      isFilledWith_iff.mp hfull _ (List.mem_map.mpr ⟨q, hq, rfl⟩)
    rw [← hval]
    exact getD_mem_of_lt "" (by rw [hrowlen q hq]; exact hj)
  rw [← hlen]
  exact count_ge_of_mem_all_rows hall

theorem count_ge_of_mainDiagonal_full {g : List (List String)} {m : String} {w : Nat}
    (hlen : g.length = w) (hrowlen : ∀ q ∈ g, q.length = w)
    (hfull : isFilledWith (allSquareMatrixLines.mainDiagonal g) m = true) :
    w ≤ boardCount g m := by
  have hall : ∀ q ∈ g, m ∈ q := by
    intro q hq
    obtain ⟨i, hi⟩ := List.get?_of_mem hq
    have hil : i < g.length := get?_some_lt hi
    have hqi : g.getD i [] = q := by rw [getD_eq_get?, hi]; rfl
    have hd := mainDiagonal_get? hil
    have hval : (g.getD i []).getD i "" = m :=
      isFilledWith_iff.mp hfull _ (List.get?_mem hd)
    rw [hqi] at hval
    rw [← hval]
    exact getD_mem_of_lt "" (by rw [hrowlen q hq, ← hlen]; exact hil)
  rw [← hlen]
  exact count_ge_of_mem_all_rows hall

theorem count_ge_of_antiDiagonal_full {g : List (List String)} {m : String} {w : Nat}
    (hlen : g.length = w) (hrowlen : ∀ q ∈ g, q.length = w)
    (hfull : isFilledWith (allSquareMatrixLines.antiDiagonal g) m = true) :
    w ≤ boardCount g m := by
  have hall : ∀ q ∈ g, m ∈ q := by
    intro q hq
    obtain ⟨i, hi⟩ := List.get?_of_mem hq
    have hil : i < g.length := get?_some_lt hi
    have hqi : g.getD i [] = q := by rw [getD_eq_get?, hi]; rfl
    have hd := antiDiagonal_get? hil
    have hval : (g.getD i []).getD (g.length - 1 - i) "" = m :=
      isFilledWith_iff.mp hfull _ (List.get?_mem hd)
    rw [hqi] at hval
    rw [← hval]
    exact getD_mem_of_lt "" (by rw [hrowlen q hq, ← hlen]; omega)
  rw [← hlen]
  exact count_ge_of_mem_all_rows hall

/-- Any of the spec's winning configurations forces at least `w` occurrences
of the mark on the board. -/
theorem count_ge_of_specWin {g : List (List String)} {m : String} {w r c : Nat}
    (hlen : g.length = w) (hrowlen : ∀ q ∈ g, q.length = w)
    (hwin : specWin w g m r c) : w ≤ boardCount g m := by
  rcases hwin with ⟨i, hi, hfull⟩ | ⟨j, hj, hfull⟩ | ⟨_, hfull⟩ | ⟨_, hfull⟩
  · exact count_ge_of_row_full hlen hrowlen hi hfull
  · exact count_ge_of_column_full hlen hrowlen hj hfull
  · exact count_ge_of_mainDiagonal_full hlen hrowlen hfull
  · exact count_ge_of_antiDiagonal_full hlen hrowlen hfull

/-- Any of the source's chain checks likewise forces `w` occurrences. -/
theorem count_ge_of_chainWin {g : List (List String)} {m : String} {w r c : Nat}
    (hlen : g.length = w) (hrowlen : ∀ q ∈ g, q.length = w)
    (hr : r < w) (hc : c < w)
    (hwin : chainWin g m r c) : w ≤ boardCount g m := by
  rcases hwin with hfull | hfull | ⟨_, hfull⟩ | ⟨_, hfull⟩
  · exact count_ge_of_row_full hlen hrowlen hr hfull
  · exact count_ge_of_column_full hlen hrowlen hc hfull
  · exact count_ge_of_mainDiagonal_full hlen hrowlen hfull
  · exact count_ge_of_antiDiagonal_full hlen hrowlen hfull

theorem sum_map_eq_of_const {α : Type} {g : List α} {f : α → Nat} {w : Nat}
    (h : ∀ q ∈ g, f q = w) : (g.map f).sum = g.length * w := by
  induction g with
  | nil => simp
  | cons x xs ih =>
    simp only [List.map_cons, List.sum_cons, List.length_cons]
    rw [h x (List.mem_cons_self x xs), ih (fun q hq => h q (List.mem_cons_of_mem x hq))]
    ring

theorem sum_map_le_of_le {α : Type} {g : List α} {f : α → Nat} {w : Nat}
    (hle : ∀ q ∈ g, f q ≤ w) : (g.map f).sum ≤ g.length * w := by
  induction g with
  | nil => simp
  | cons x xs ih =>
    simp only [List.map_cons, List.sum_cons, List.length_cons]
    have h1 := hle x (List.mem_cons_self x xs)
    have h2 := ih (fun q hq => hle q (List.mem_cons_of_mem x hq))
    have h3 : (xs.length + 1) * w = xs.length * w + w := by ring
    omega

theorem sum_map_lt_of_lt {α : Type} {g : List α} {f : α → Nat} {w : Nat}
    (hle : ∀ q ∈ g, f q ≤ w) (hlt : ∃ q ∈ g, f q < w) :
    (g.map f).sum < g.length * w := by
  induction g with
  | nil => obtain ⟨q, hq, _⟩ := hlt; simp at hq
  | cons x xs ih =>
    simp only [List.map_cons, List.sum_cons, List.length_cons]
    have hxle := hle x (List.mem_cons_self x xs)
    have hxsle : ∀ q ∈ xs, f q ≤ w := fun q hq => hle q (List.mem_cons_of_mem x hq)
    have hxsum := sum_map_le_of_le hxsle
    have hmul : (xs.length + 1) * w = xs.length * w + w := by ring
    rcases hlt with ⟨q, hq, hqlt⟩
    rcases List.mem_cons.mp hq with hq | hq
    · subst hq
      omega
    · have := ih hxsle ⟨q, hq, hqlt⟩
      omega

/-- On a well-formed `w × w` grid, the board is completely full exactly when
`w * w` cells are marked. -/
theorem boardFull_iff_totalMarked {g : List (List String)} {w : Nat}
    (hlen : g.length = w) (hrowlen : ∀ q ∈ g, q.length = w) :
    boardFull g ↔ totalMarked g = w * w := by
  constructor
  · intro hfull
    unfold totalMarked
    rw [sum_map_eq_of_const (w := w), hlen]
    intro q hq
    rw [← hrowlen q hq]
    apply List.countP_eq_length.mpr
    intro cell hcell
    simpa using hfull q hq cell hcell
  · intro hsum
    by_contra hnf
    unfold boardFull at hnf
    push_neg at hnf
    obtain ⟨q, hq, cell, hcell, hempty⟩ := hnf
    have hqlt : q.countP (fun cell => cell != "") < w := by
      have hle := List.countP_le_length (l := q) (fun cell => cell != "")
      rw [hrowlen q hq] at hle
      rcases Nat.lt_or_ge (q.countP (fun cell => cell != "")) w with h | h
      · exact h
      · exfalso
        have heq : q.countP (fun cell => cell != "") = q.length := by
          rw [hrowlen q hq]; omega
        have := List.countP_eq_length.mp heq cell hcell
        rw [hempty] at this
        simp at this
    have hlt : totalMarked g < w * w := by
      unfold totalMarked
      have := sum_map_lt_of_lt (g := g) (f := fun q => q.countP (fun cell => cell != ""))
        (w := w) (fun q2 hq2 => by
          have := List.countP_le_length (l := q2) (fun cell => cell != "")
          rw [hrowlen q2 hq2] at this
          exact this) ⟨q, hq, hqlt⟩
      rw [hlen] at this
      exact this
    omega

/-- `markResult` under the fast-reject threshold. -/
theorem markResult_fast {s : GameState} {mark : String} {r c : Nat}
    (h : s.currentTurn < firstTurnAtWhichGameCanEnd) :
    markResult s mark r c = { result := allResults.NONE } := by
  unfold markResult
  rw [if_pos h]

/-- `markResult` past the fast-reject threshold: the source's decision chain,
as three iffs over `chainWin` and the board-full draw condition. -/
theorem markResult_cases {s : GameState} {mark : String} {r c : Nat}
    (h : ¬ s.currentTurn < firstTurnAtWhichGameCanEnd) :
    ((markResult s mark r c).result = allResults.WIN_LOSE ↔
      chainWin s.gameboard mark r c) ∧
    ((markResult s mark r c).result = allResults.DRAW ↔
      (¬ chainWin s.gameboard mark r c ∧ s.currentTurn = s.width ^ 2)) ∧
    ((markResult s mark r c).result = allResults.NONE ↔
      (¬ chainWin s.gameboard mark r c ∧ s.currentTurn ≠ s.width ^ 2)) := by
  unfold markResult chainWin
  rw [if_neg h]
  by_cases h1 : isFilledWith (allSquareMatrixLines.row s.gameboard r) mark = true
  · rw [if_pos h1]
    refine ⟨?_, ?_, ?_⟩ <;>
      simp [allResults.NONE, allResults.WIN_LOSE, allResults.DRAW, h1]
  · rw [if_neg h1]
    by_cases h2 : isFilledWith (allSquareMatrixLines.column s.gameboard c) mark = true
    · rw [if_pos h2]
      refine ⟨?_, ?_, ?_⟩ <;>
        simp [allResults.NONE, allResults.WIN_LOSE, allResults.DRAW, h1, h2]
    · rw [if_neg h2]
      by_cases h3 : r = c
          ∧ isFilledWith (allSquareMatrixLines.mainDiagonal s.gameboard) mark = true
      · rw [if_pos h3]
        refine ⟨?_, ?_, ?_⟩ <;>
          simp [allResults.NONE, allResults.WIN_LOSE, allResults.DRAW, h1, h2, h3]
      · rw [if_neg h3]
        by_cases h4 : (r : Int) + c = (s.gameboard.length : Int) - 1
            ∧ isFilledWith (allSquareMatrixLines.antiDiagonal s.gameboard) mark = true
        · rw [if_pos h4]
          refine ⟨?_, ?_, ?_⟩ <;>
            simp [allResults.NONE, allResults.WIN_LOSE, allResults.DRAW,
              h1, h2, h3, h4]
        · rw [if_neg h4]
          by_cases h5 : s.currentTurn = s.width ^ 2
          · rw [if_pos h5]
            refine ⟨?_, ?_, ?_⟩ <;>
              simp [allResults.NONE, allResults.WIN_LOSE, allResults.DRAW,
                h1, h2, h3, h4, h5]
          · rw [if_neg h5]
            refine ⟨?_, ?_, ?_⟩ <;>
              simp [allResults.NONE, allResults.WIN_LOSE, allResults.DRAW,
                h1, h2, h3, h4, h5]

/-! ## Invariant lemmas -/

/-- Under the invariant the current player is determined by the turn parity:
X moves on odd turns, O on even turns. -/
theorem inv_current_player {w : Nat} {s : GameState} (inv : Inv w s)
    {p : Player} (hp : s.currentPlayer = some p) :
    ∃ a b, s.players = [⟨a, "X"⟩, ⟨b, "O"⟩] ∧
      ((s.currentTurn % 2 = 1 ∧ p = ⟨a, "X"⟩) ∨
       (s.currentTurn % 2 = 0 ∧ p = ⟨b, "O"⟩)) := by
  obtain ⟨a, b, hps⟩ := inv.players_shape
  have hcur := inv.current
  rw [hp, hps] at hcur
  have hturn : 1 ≤ s.currentTurn := by
    have := inv.turn_count
    omega
  refine ⟨a, b, hps, ?_⟩
  rcases Nat.mod_two_eq_zero_or_one (s.currentTurn - 1) with hm | hm
  · left
    rw [hm] at hcur
    exact ⟨by omega, Option.some.inj (hcur.trans rfl)⟩
  · right
    rw [hm] at hcur
    exact ⟨by omega, Option.some.inj (hcur.trans rfl)⟩

/-- Under the invariant the current player's mark is `"X"` or `"O"`. -/
theorem inv_current_mark {w : Nat} {s : GameState} (inv : Inv w s)
    {p : Player} (hp : s.currentPlayer = some p) :
    p.mark = "X" ∨ p.mark = "O" := by
  obtain ⟨a, b, _, hcase⟩ := inv_current_player inv hp
  rcases hcase with ⟨_, hpe⟩ | ⟨_, hpe⟩ <;> subst hpe
  · exact Or.inl rfl
  · exact Or.inr rfl

/-- In the marked state, the spec's "some full line (diagonals when the cell
lies on them)" is exactly the source's chain of checks at `(r, c)`: a full row
or column elsewhere would have to have been full before this mark, which the
invariant excludes. -/
theorem specWin_iff_chainWin {w : Nat} (hw : 3 ≤ w) {s : GameState} (inv : Inv w s)
    {p : Player} (hp : s.currentPlayer = some p) {r c : Nat} {row : List String}
    (hr : r < w) (hc : c < w)
    (hrow : s.gameboard.get? r = some row) (hcell : row.get? c = some "") :
    (specWin w (s.gameboard.set r (row.set c p.mark)) p.mark r c ↔
     chainWin (s.gameboard.set r (row.set c p.mark)) p.mark r c) := by
  have hlen' : (s.gameboard.set r (row.set c p.mark)).length = w := by
    rw [List.length_set, inv.glen]
  have hmarkmem : p.mark ∈ marks := by
    rcases inv_current_mark inv hp with hm | hm <;> rw [hm] <;> simp [marks]
  have hnoline := inv.no_line p.mark hmarkmem
  have hint : ((r : Int) + c = ((s.gameboard.set r (row.set c p.mark)).length : Int) - 1)
      ↔ r + c = w - 1 := by
    rw [hlen']
    omega
  constructor
  · rintro (⟨i, hi, hfull⟩ | ⟨j, hj, hfull⟩ | ⟨hrc, hfull⟩ | ⟨hnat, hfull⟩)
    · by_cases hir : i = r
      · subst hir
        exact Or.inl hfull
      · exfalso
        rw [row_set_ne _ hir] at hfull
        rw [hnoline.1 i hi] at hfull
        exact absurd hfull (by simp)
    · by_cases hjc : j = c
      · subst hjc
        exact Or.inr (Or.inl hfull)
      · exfalso
        rw [column_set_ne hrow hjc] at hfull
        rw [hnoline.2.1 j hj] at hfull
        exact absurd hfull (by simp)
    · exact Or.inr (Or.inr (Or.inl ⟨hrc, hfull⟩))
    · exact Or.inr (Or.inr (Or.inr ⟨hint.mpr hnat, hfull⟩))
  · rintro (hfull | hfull | ⟨hrc, hfull⟩ | ⟨hintc, hfull⟩)
    · exact Or.inl ⟨r, hr, hfull⟩
    · exact Or.inr (Or.inl ⟨c, hc, hfull⟩)
    · exact Or.inr (Or.inr (Or.inl ⟨hrc, hfull⟩))
    · exact Or.inr (Or.inr (Or.inr ⟨hint.mp hintc, hfull⟩))

/-- The evaluation after a successful mark, under the invariant: the source's
`markResult` (fast reject included) agrees with the spec's win/draw
conditions on the updated board. -/
theorem markResult_spec {w : Nat} (hw : 3 ≤ w) {s : GameState} (inv : Inv w s)
    {p : Player} (hp : s.currentPlayer = some p) {r c : Nat} {row : List String}
    (hr : r < w) (hc : c < w)
    (hrow : s.gameboard.get? r = some row) (hcell : row.get? c = some "") :
    ((markResult { s with gameboard := s.gameboard.set r (row.set c p.mark) }
        p.mark r c).result = allResults.WIN_LOSE ↔
      specWin w (s.gameboard.set r (row.set c p.mark)) p.mark r c) ∧
    ((markResult { s with gameboard := s.gameboard.set r (row.set c p.mark) }
        p.mark r c).result = allResults.DRAW ↔
      (boardFull (s.gameboard.set r (row.set c p.mark)) ∧
        ¬ specWin w (s.gameboard.set r (row.set c p.mark)) p.mark r c)) ∧
    ((markResult { s with gameboard := s.gameboard.set r (row.set c p.mark) }
        p.mark r c).result = allResults.NONE ↔
      (¬ specWin w (s.gameboard.set r (row.set c p.mark)) p.mark r c ∧
        ¬ boardFull (s.gameboard.set r (row.set c p.mark)))) := by
  have hrg : r < s.gameboard.length := get?_some_lt hrow
  have hcrow : c < row.length := get?_some_lt hcell
  have hlen' : (s.gameboard.set r (row.set c p.mark)).length = w := by
    rw [List.length_set, inv.glen]
  have hrowlen' : ∀ q ∈ s.gameboard.set r (row.set c p.mark), q.length = w := by
    intro q hq
    rcases List.mem_or_eq_of_mem_set hq with hq | hq
    · exact inv.rowlen q hq
    · rw [hq, List.length_set]
      exact inv.rowlen row (List.get?_mem hrow)
  have hXO := inv_current_mark inv hp
  have hmne : p.mark ≠ "" := by rcases hXO with hm | hm <;> simp [hm]
  have hcounts := boardCount_set_of_empty hrow hcell hmne
  have htotal : totalMarked (s.gameboard.set r (row.set c p.mark)) = s.currentTurn := by
    have := inv.turn_count
    omega
  have hfulliff : boardFull (s.gameboard.set r (row.set c p.mark)) ↔
      s.currentTurn = w * w := by
    rw [boardFull_iff_totalMarked hlen', htotal]
    exact hrowlen'
  have hft : firstTurnAtWhichGameCanEnd = 5 := rfl
  by_cases hfast : s.currentTurn < firstTurnAtWhichGameCanEnd
  · -- fast-reject: turn < 5, so the placed mark occurs fewer than w times
    -- and the board cannot be full; both sides of every iff are false.
    rw [hft] at hfast
    have hcount' : boardCount (s.gameboard.set r (row.set c p.mark)) p.mark < w := by
      obtain ⟨a, b, _, hparity⟩ := inv_current_player inv hp
      have hcX := inv.countX
      have hcO := inv.countO
      have h1 := hcounts.1
      rcases hparity with ⟨hpar, hpe⟩ | ⟨hpar, hpe⟩
      · have hmk : p.mark = "X" := by rw [hpe]
        rw [hmk] at h1 ⊢
        omega
      · have hmk : p.mark = "O" := by rw [hpe]
        rw [hmk] at h1 ⊢
        omega
    have hnospec : ¬ specWin w (s.gameboard.set r (row.set c p.mark)) p.mark r c := by
      intro hspec
      exact absurd (count_ge_of_specWin hlen' hrowlen' hspec) (by omega)
    have hnofull : ¬ boardFull (s.gameboard.set r (row.set c p.mark)) := by
      rw [hfulliff]
      have : 9 ≤ w * w := by nlinarith
      omega
    rw [@markResult_fast { s with gameboard := s.gameboard.set r (row.set c p.mark) }
      p.mark r c (by rw [hft]; exact hfast)]
    refine ⟨?_, ?_, ?_⟩
    · simp only [allResults.NONE, allResults.WIN_LOSE]
      constructor
      · intro hh; exact absurd hh (by decide)
      · intro hh; exact absurd hh hnospec
    · simp only [allResults.NONE, allResults.DRAW]
      constructor
      · intro hh; exact absurd hh (by decide)
      · intro hh; exact absurd hh.1 hnofull
    · simp only [allResults.NONE]
      exact ⟨fun _ => ⟨hnospec, hnofull⟩, fun _ => trivial⟩
  · -- past the threshold: the full chain runs and matches the spec.
    have hcases := @markResult_cases
      { s with gameboard := s.gameboard.set r (row.set c p.mark) } p.mark r c hfast
    have hchain := specWin_iff_chainWin hw inv hp hr hc hrow hcell
    have hw2 : ({ s with gameboard := s.gameboard.set r (row.set c p.mark) } :
        GameState).width ^ 2 = w * w := by
      show s.width ^ 2 = w * w
      rw [inv.width_eq]
      ring
    have hfull3 : boardFull (s.gameboard.set r (row.set c p.mark)) ↔
        s.currentTurn = ({ s with gameboard := s.gameboard.set r (row.set c p.mark) } :
          GameState).width ^ 2 := by
      rw [hw2]
      exact hfulliff
    refine ⟨?_, ?_, ?_⟩
    · exact hcases.1.trans hchain.symm
    · rw [hcases.2.1]
      constructor
      · rintro ⟨hnc, ht⟩
        exact ⟨hfull3.mpr ht, fun hsp => hnc (hchain.mp hsp)⟩
      · rintro ⟨hbf, hns⟩
        exact ⟨fun hcw2 => hns (hchain.mpr hcw2), hfull3.mp hbf⟩
    · rw [hcases.2.2]
      constructor
      · rintro ⟨hnc, hnt⟩
        exact ⟨fun hsp => hnc (hchain.mp hsp), fun hbf => hnt (hfull3.mp hbf)⟩
      · rintro ⟨hns, hnf⟩
        exact ⟨fun hcw2 => hns (hchain.mpr hcw2), fun ht => hnf (hfull3.mpr ht)⟩

/-- `start` with exactly two string names always succeeds, in closed form. -/
theorem start_two_strings (s : GameState) (w : Nat) (a b : String) :
    start s w [JsVal.str a, JsVal.str b]
      = ({ width := w, gameboard := Gameboard.clear w,
           players := [⟨a, "X"⟩, ⟨b, "O"⟩],
           currentPlayer := some ⟨a, "X"⟩,
           currentTurn := if s.players.length > 0 then 1 else s.currentTurn }, none) := by
  have hlen : ¬ ([JsVal.str a, JsVal.str b].length ≠ marks.length) := by simp [marks]
  unfold start
  by_cases hpl : s.players.length > 0
  · rw [if_pos hpl, if_neg hlen, pushPlayers_two_strings, if_pos hpl]
    rfl
  · rw [if_neg hpl, if_neg hlen, pushPlayers_two_strings, if_neg hpl]
    rfl

theorem replicate_getD (w j : Nat) : (List.replicate w ("" : String)).getD j "" = "" := by
  rcases getD_mem_or_eq (List.replicate w ("" : String)) j "" with hm | hm
  · exact List.eq_of_mem_replicate hm
  · exact hm

theorem clear_get? {w i : Nat} (hi : i < w) :
    (Gameboard.clear w).get? i = some (List.replicate w "") := by
  unfold Gameboard.clear
  rw [List.get?_eq_getElem?, List.getElem?_replicate, if_pos hi]

/-- The cleared board has no full line of a non-empty mark. -/
theorem noFullLine_clear {w : Nat} (hw : 0 < w) {m : String} (hm : m ≠ "") :
    noFullLine w (Gameboard.clear w) m := by
  have hlen : (Gameboard.clear w).length = w := List.length_replicate ..
  have hget0 := clear_get? (show 0 < w from hw)
  have hgd : ∀ i, (Gameboard.clear w).getD i [] = List.replicate w "" ∨
      (Gameboard.clear w).getD i [] = [] := by
    intro i
    rcases getD_mem_or_eq (Gameboard.clear w) i [] with hmem | hmem
    · exact Or.inl (List.eq_of_mem_replicate hmem)
    · exact Or.inr hmem
  refine ⟨?_, ?_, ?_, ?_⟩
  · intro i hi
    have hrow : allSquareMatrixLines.row (Gameboard.clear w) i = List.replicate w "" := by
      unfold allSquareMatrixLines.row
      rw [getD_eq_get?]
      rw [clear_get? hi]
      rfl
    rw [hrow]
    exact isFilledWith_false_of_mem
      (List.mem_replicate.mpr ⟨by omega, rfl⟩) (fun hh => hm hh.symm)
  · intro j hj
    have hcol : ∀ x ∈ allSquareMatrixLines.column (Gameboard.clear w) j, x = "" := by
      intro x hx
      obtain ⟨q, hq, hqx⟩ := List.mem_map.mp hx
      rw [← hqx, List.eq_of_mem_replicate hq]
      exact replicate_getD w j
    have hmem0 : ("" : String) ∈ allSquareMatrixLines.column (Gameboard.clear w) j := by
      apply List.get?_mem
      rw [column_get?, hget0]
      simp [replicate_getD]
    exact isFilledWith_false_of_mem hmem0 (fun hh => hm hh.symm)
  · have h0 : (allSquareMatrixLines.mainDiagonal (Gameboard.clear w)).get? 0
        = some "" := by
      rw [mainDiagonal_get? (by omega)]
      rcases hgd 0 with hq | hq <;> rw [hq] <;> simp [replicate_getD]
    exact isFilledWith_false_of_mem (List.get?_mem h0) (fun hh => hm hh.symm)
  · have h0 : (allSquareMatrixLines.antiDiagonal (Gameboard.clear w)).get? 0
        = some "" := by
      rw [antiDiagonal_get? (by omega)]
      rcases hgd 0 with hq | hq <;> rw [hq] <;> simp [replicate_getD]
    exact isFilledWith_false_of_mem (List.get?_mem h0) (fun hh => hm hh.symm)

/-- A successful two-name `start` establishes the invariant. -/
theorem inv_start {w : Nat} (hw : 3 ≤ w) {s : GameState} {a b : String}
    {s2 : GameState} (hq : s.players = [] → s.currentTurn = 1)
    (h : start s w [JsVal.str a, JsVal.str b] = (s2, none)) : Inv w s2 := by
  rw [start_two_strings] at h
  have hs2 := (congrArg Prod.fst h).symm
  simp only at hs2
  have hturn : s2.currentTurn = 1 := by
    rw [hs2]
    by_cases hpl : s.players.length > 0
    · simp [hpl]
    · have hnil : s.players = [] := List.length_eq_zero.mp (Nat.eq_zero_of_not_pos hpl)
      simp [hpl, hq hnil]
  have hclear0 : ∀ q ∈ Gameboard.clear w, q = List.replicate w "" :=
    fun q hq2 => List.eq_of_mem_replicate hq2
  constructor
  · rw [hs2]
  · rw [hs2]
    exact List.length_replicate ..
  · rw [hs2]
    intro q hq2
    rw [hclear0 q hq2]
    exact List.length_replicate ..
  · rw [hs2]
    intro q hq2 cell hcell
    rw [hclear0 q hq2] at hcell
    exact Or.inl (List.eq_of_mem_replicate hcell)
  · rw [hs2]
    exact ⟨a, b, rfl⟩
  · rw [hturn, hs2]
    have : totalMarked (Gameboard.clear w) = 0 := by
      unfold totalMarked
      rw [sum_map_eq_of_const (w := 0)]
      · ring
      · intro q hq2
        rw [hclear0 q hq2, List.countP_eq_zero]
        intro x hx
        rw [List.eq_of_mem_replicate hx]
        simp
    rw [this]
  · rw [hturn, hs2]
    have : boardCount (Gameboard.clear w) "X" = 0 := by
      unfold boardCount
      rw [sum_map_eq_of_const (w := 0)]
      · ring
      · intro q hq2
        rw [hclear0 q hq2]
        exact List.count_eq_zero.mpr
          (fun hmem => by simpa using List.eq_of_mem_replicate hmem)
    rw [this]
  · rw [hturn, hs2]
    have : boardCount (Gameboard.clear w) "O" = 0 := by
      unfold boardCount
      rw [sum_map_eq_of_const (w := 0)]
      · ring
      · intro q hq2
        rw [hclear0 q hq2]
        exact List.count_eq_zero.mpr
          (fun hmem => by simpa using List.eq_of_mem_replicate hmem)
    rw [this]
  · rw [hturn, hs2]
    rfl
  · rw [hs2]
    intro m hm
    have hmne : m ≠ "" := by
      rcases (by simpa [marks] using hm : m = "X" ∨ m = "O") with hh | hh <;> simp [hh]
    exact noFullLine_clear (by omega) hmne

/-- A successful mark whose evaluation is `NONE` preserves the invariant. -/
theorem inv_step {w : Nat} (hw : 3 ≤ w) {s : GameState} {r c : Nat}
    {s2 : GameState} {tr : TurnResultData} (inv : Inv w s)
    (h : playTurn s r c = (s2, Except.ok (some tr)))
    (hres : tr.result = allResults.NONE) : Inv w s2 := by
  obtain ⟨p, g', hp, hmg, htr, hcase⟩ := playTurn_ok_some_inv h
  rcases hcase with ⟨_, hs2⟩ | ⟨hne, _⟩
  swap
  · exact absurd hres hne
  obtain ⟨hcont, hrw0, hcw0, row, hrow, hcell, hg'⟩ := markGameboard_ok_true_inv hmg
  subst hg'
  have hr : r < w := inv.width_eq ▸ hrw0
  have hc : c < w := inv.width_eq ▸ hcw0
  have hrg : r < s.gameboard.length := get?_some_lt hrow
  have hcrow : c < row.length := get?_some_lt hcell
  have hXO := inv_current_mark inv hp
  have hmne : p.mark ≠ "" := by rcases hXO with hm | hm <;> simp [hm]
  have hpmem : p.mark ∈ marks := by
    rcases hXO with hm | hm <;> rw [hm] <;> simp [marks]
  have hcounts := boardCount_set_of_empty hrow hcell hmne
  have hspec := markResult_spec hw inv hp hr hc hrow hcell
  have hNone : (markResult { s with gameboard := s.gameboard.set r (row.set c p.mark) }
      p.mark r c).result = allResults.NONE := by
    rw [← htr]
    exact hres
  obtain ⟨hnospec, _⟩ := hspec.2.2.mp hNone
  obtain ⟨a, b, hps, hparity⟩ := inv_current_player inv hp
  subst hs2
  constructor
  · exact inv.width_eq
  · show (s.gameboard.set r (row.set c p.mark)).length = w
    rw [List.length_set, inv.glen]
  · show ∀ q ∈ s.gameboard.set r (row.set c p.mark), q.length = w
    intro q hq2
    rcases List.mem_or_eq_of_mem_set hq2 with hh | hh
    · exact inv.rowlen q hh
    · rw [hh, List.length_set]
      exact inv.rowlen row (List.get?_mem hrow)
  · show ∀ q ∈ s.gameboard.set r (row.set c p.mark), ∀ cell ∈ q,
        cell = "" ∨ cell = "X" ∨ cell = "O"
    intro q hq2 cell hcell2
    rcases List.mem_or_eq_of_mem_set hq2 with hh | hh
    · exact inv.cells q hh cell hcell2
    · rw [hh] at hcell2
      rcases List.mem_or_eq_of_mem_set hcell2 with hh2 | hh2
      · exact inv.cells row (List.get?_mem hrow) cell hh2
      · rw [hh2]
        rcases hXO with hm | hm <;> rw [hm]
        · exact Or.inr (Or.inl rfl)
        · exact Or.inr (Or.inr rfl)
  · exact ⟨a, b, hps⟩
  · show s.currentTurn + 1 = 1 + totalMarked (s.gameboard.set r (row.set c p.mark))
    have h1 := hcounts.2.2
    have h2 := inv.turn_count
    omega
  · show boardCount (s.gameboard.set r (row.set c p.mark)) "X" = (s.currentTurn + 1) / 2
    rcases hparity with ⟨hpar, hpe⟩ | ⟨hpar, hpe⟩
    · have hmk : p.mark = "X" := by rw [hpe]
      have h1 := hcounts.1
      rw [hmk] at h1
      rw [hmk, h1, inv.countX]
      omega
    · have hmk : p.mark = "O" := by rw [hpe]
      have h2 := hcounts.2.1 "X" (by rw [hmk]; decide) (by decide)
      rw [hmk] at h2
      rw [hmk, h2, inv.countX]
      omega
  · show boardCount (s.gameboard.set r (row.set c p.mark)) "O"
        = (s.currentTurn + 1 - 1) / 2
    rcases hparity with ⟨hpar, hpe⟩ | ⟨hpar, hpe⟩
    · have hmk : p.mark = "X" := by rw [hpe]
      have h2 := hcounts.2.1 "O" (by rw [hmk]; decide) (by decide)
      rw [hmk] at h2
      rw [hmk, h2, inv.countO]
      omega
    · have hmk : p.mark = "O" := by rw [hpe]
      have h1 := hcounts.1
      rw [hmk] at h1
      have ht1 := inv.turn_count
      rw [hmk, h1, inv.countO]
      omega
  · show some (if s.players.indexOf p = s.players.length - 1 then s.players.getD 0 p
        else s.players.getD (s.players.indexOf p + 1) p)
        = s.players.get? ((s.currentTurn + 1 - 1) % 2)
    have hneq : (⟨a, "X"⟩ : Player) ≠ ⟨b, "O"⟩ := by
      intro hh
      injection hh with h1 h2
      exact absurd h2 (by decide)
    rcases hparity with ⟨hpar, hpe⟩ | ⟨hpar, hpe⟩
    · subst hpe
      rw [hps, (nextPlayer_two hneq).1]
      have hmod : (s.currentTurn + 1 - 1) % 2 = 1 := by omega
      rw [hmod]
      rfl
    · subst hpe
      rw [hps, (nextPlayer_two hneq).2]
      have hmod : (s.currentTurn + 1 - 1) % 2 = 0 := by omega
      rw [hmod]
      rfl
  · show ∀ m ∈ marks, noFullLine w (s.gameboard.set r (row.set c p.mark)) m
    intro m hmarks
    by_cases hpm : m = p.mark
    · rw [hpm]
      refine ⟨?_, ?_, ?_, ?_⟩
      · intro i hi
        cases hfull : isFilledWith
            (allSquareMatrixLines.row (s.gameboard.set r (row.set c p.mark)) i)
            p.mark with
        | false => rfl
        | true => exact absurd (Or.inl ⟨i, hi, hfull⟩) hnospec
      · intro j hj
        cases hfull : isFilledWith
            (allSquareMatrixLines.column (s.gameboard.set r (row.set c p.mark)) j)
            p.mark with
        | false => rfl
        | true => exact absurd (Or.inr (Or.inl ⟨j, hj, hfull⟩)) hnospec
      · by_cases hrc : r = c
        · cases hfull : isFilledWith
              (allSquareMatrixLines.mainDiagonal
                (s.gameboard.set r (row.set c p.mark))) p.mark with
          | false => rfl
          | true => exact absurd (Or.inr (Or.inr (Or.inl ⟨hrc, hfull⟩))) hnospec
        · rw [mainDiagonal_set_off hrow hrc]
          exact (inv.no_line p.mark hpmem).2.2.1
      · by_cases hac : r + c = w - 1
        · cases hfull : isFilledWith
              (allSquareMatrixLines.antiDiagonal
                (s.gameboard.set r (row.set c p.mark))) p.mark with
          | false => rfl
          | true => exact absurd (Or.inr (Or.inr (Or.inr ⟨hac, hfull⟩))) hnospec
        · rw [antiDiagonal_set_off hrow (by have := inv.glen; omega)]
          exact (inv.no_line p.mark hpmem).2.2.2
    · have hpne : p.mark ≠ m := fun hh => hpm hh.symm
      refine ⟨?_, ?_, ?_, ?_⟩
      · intro i hi
        by_cases hir : i = r
        · subst hir
          rw [row_set_eq _ hrg]
          exact isFilledWith_false_of_mem
            (List.get?_mem (List.get?_set_eq_of_lt _ hcrow)) hpne
        · rw [row_set_ne _ hir]
          exact (inv.no_line m hmarks).1 i hi
      · intro j hj
        by_cases hjc : j = c
        · subst hjc
          have hsome : (allSquareMatrixLines.column
              (s.gameboard.set r (row.set j p.mark)) j).get? r = some p.mark := by
            rw [column_get?, List.get?_set_eq_of_lt _ hrg]
            show some ((row.set j p.mark).getD j "") = some p.mark
            rw [getD_eq_get?, List.get?_set_eq_of_lt _ hcrow]
            rfl
          exact isFilledWith_false_of_mem (List.get?_mem hsome) hpne
        · rw [column_set_ne hrow hjc]
          exact (inv.no_line m hmarks).2.1 j hj
      · by_cases hrc : r = c
        · have hgd : (s.gameboard.set r (row.set c p.mark)).getD r []
              = row.set c p.mark := by
            rw [getD_eq_get?, List.get?_set_eq_of_lt _ hrg]
            rfl
          have hsome : (allSquareMatrixLines.mainDiagonal
              (s.gameboard.set r (row.set c p.mark))).get? r = some p.mark := by
            rw [mainDiagonal_get? (by rw [List.length_set]; exact hrg), hgd]
            rw [hrc, getD_eq_get?, List.get?_set_eq_of_lt _ hcrow]
            rfl
          exact isFilledWith_false_of_mem (List.get?_mem hsome) hpne
        · rw [mainDiagonal_set_off hrow hrc]
          exact (inv.no_line m hmarks).2.2.1
      · by_cases hac : r + c = w - 1
        · have hgd : (s.gameboard.set r (row.set c p.mark)).getD r []
              = row.set c p.mark := by
            rw [getD_eq_get?, List.get?_set_eq_of_lt _ hrg]
            rfl
          have hcc : (s.gameboard.set r (row.set c p.mark)).length - 1 - r = c := by
            rw [List.length_set]
            have := inv.glen
            omega
          have hsome : (allSquareMatrixLines.antiDiagonal
              (s.gameboard.set r (row.set c p.mark))).get? r = some p.mark := by
            rw [antiDiagonal_get? (by rw [List.length_set]; exact hrg), hgd]
            rw [hcc, getD_eq_get?, List.get?_set_eq_of_lt _ hcrow]
            rfl
          exact isFilledWith_false_of_mem (List.get?_mem hsome) hpne
        · rw [antiDiagonal_set_off hrow (by have := inv.glen; omega)]
          exact (inv.no_line m hmarks).2.2.2

/-- Every in-play state satisfies the invariant. -/
theorem inPlay_inv {w : Nat} (hw : 3 ≤ w) {s : GameState} (hs : InPlay w s) :
    Inv w s := by
  induction hs with
  | started s0 a b s2 hq h => exact inv_start hw hq h
  | stepped s0 r c s2 tr hs0 h hres ih => exact inv_step hw ih h hres

/-- Claim C2 (amended to widths ≥ 3 and in-progress sequences; see the
counterexample for width 2).  For every width `w ≥ 3` and every in-progress
match reached from `start(w, a, b)` by successful marks all evaluated `NONE`,
the evaluation of the next successful mark returns `Win` iff some full row,
full column, the main diagonal (when the placed cell lies on it), or the
anti-diagonal (when the placed cell lies on it) is filled entirely with the
placed mark, and returns `Draw` iff the board is completely full and no such
line exists. -/
theorem c2_win_draw_iff {w : Nat} (hw : 3 ≤ w) {s : GameState} (hs : InPlay w s)
    {r c : Nat} {p : Player} {s2 : GameState} {tr : TurnResultData}
    (hp : s.currentPlayer = some p)
    (h : playTurn s r c = (s2, Except.ok (some tr))) :
    (tr.result = allResults.WIN_LOSE ↔ specWin w s2.gameboard p.mark r c) ∧
    (tr.result = allResults.DRAW ↔
      (boardFull s2.gameboard ∧ ¬ specWin w s2.gameboard p.mark r c)) := by
  have inv := inPlay_inv hw hs
  obtain ⟨p2, g', hp2, hmg, htr, hcase⟩ := playTurn_ok_some_inv h
  have hpp : p2 = p := by
    rw [hp] at hp2
    exact (Option.some.inj hp2).symm
  rw [hpp] at hmg htr
  obtain ⟨hcont, hrw0, hcw0, row, hrow, hcell, hg'⟩ := markGameboard_ok_true_inv hmg
  subst hg'
  have hr : r < w := inv.width_eq ▸ hrw0
  have hc : c < w := inv.width_eq ▸ hcw0
  have hspec := markResult_spec hw inv hp hr hc hrow hcell
  have hgb : s2.gameboard = s.gameboard.set r (row.set c p.mark) := by
    rcases hcase with ⟨_, hs2⟩ | ⟨_, hs2⟩ <;> subst hs2 <;> rfl
  rw [htr, hgb]
  exact ⟨hspec.1, hspec.2.1⟩

/-- Claim C2 witness, at the spec's own §8 scenario: `start(3,"A","B")`, four
`NONE` marks X(0,0), O(1,0), X(0,1), O(1,1), then X(0,2), whose evaluation is
`Win` and whose board indeed has row 0 entirely `"X"`. -/
theorem c2_witness :
    (playTurn demoRun4 0 2).2 = Except.ok (some
      { result := allResults.WIN_LOSE, winningLineType := some "row",
        winningLineNumber := some 0 }) ∧
    specWin 3 winState.gameboard "X" 0 2 := by
  have h0 : InPlay 3 demoStart :=
    InPlay.started initialState "A" "B" demoStart (fun _ => rfl) (by decide)
  have h1 : InPlay 3 (playTurn demoStart 0 0).1 :=
    InPlay.stepped demoStart 0 0 (playTurn demoStart 0 0).1
      { result := allResults.NONE } h0 (by decide) rfl
  have h2 : InPlay 3 (playTurn (playTurn demoStart 0 0).1 1 0).1 :=
    InPlay.stepped (playTurn demoStart 0 0).1 1 0
      (playTurn (playTurn demoStart 0 0).1 1 0).1
      { result := allResults.NONE } h1 (by decide) rfl
  have h3 : InPlay 3 (playTurn (playTurn (playTurn demoStart 0 0).1 1 0).1 0 1).1 :=
    InPlay.stepped (playTurn (playTurn demoStart 0 0).1 1 0).1 0 1
      (playTurn (playTurn (playTurn demoStart 0 0).1 1 0).1 0 1).1
      { result := allResults.NONE } h2 (by decide) rfl
  have h4 : InPlay 3 demoRun4 :=
    InPlay.stepped (playTurn (playTurn (playTurn demoStart 0 0).1 1 0).1 0 1).1 1 1
      demoRun4 { result := allResults.NONE } h3 (by decide) rfl
  have hiff := @c2_win_draw_iff 3 (by decide) demoRun4 h4 0 2 ⟨"A", "X"⟩ winState
    { result := allResults.WIN_LOSE, winningLineType := some "row",
      winningLineNumber := some 0 } (by decide) (by decide)
  exact ⟨by decide, hiff.1.mp rfl⟩

end TicTacToe
